import Mathlib

/-!
Boten: a credit-metered, token-authenticated gateway to LLM providers.

A shallow embedding of `handlers/handlers.go`, `models/logic.go` and
`models/data.go`, and theorems about it.

Conventions of the embedding.

* A Go `string` is a sequence of bytes; it is embedded as a `List Char`, one
  `Char` per byte.  `len(s)` is `s.length`, `s[i:]` is `sliceFrom s i`.
* A Go function that can abort with a run-time panic (failed type assertion,
  index out of range, slice bounds out of range) returns `Option`, with
  `none` for the panic, or has a constructor `panic` in its result type.
* The clock, the UUID generator, the environment variables, the HTTP client
  and the failures of the backing store are parameters of the operations.
* A stored balance is a finite `float64`, held as the rational number it
  denotes; the charge made by `handleChessMove` is computed with the IEEE 754
  rounding of `float64` (`roundFloat64`).
* Logging (`log.Println`, `fmt.Println`) is left out; the texts of returned
  errors are kept without the `%v` rendering of an underlying error.
-/

namespace Boten

/-- A Go string: a sequence of bytes. -/
abbrev GoString := List Char

/-! ## The parts of Go's `strings` package used by the program -/

namespace strings

/-- Worker of `Split`: scans the string left to right; the counter is the number
of bytes of an already recognised separator still to be skipped. -/
def splitFrom (sep : GoString) : Nat → GoString → List GoString
  | _, [] => [[]]
  | skip + 1, _ :: cs => splitFrom sep skip cs
  | 0, c :: cs =>
    if sep.isPrefixOf (c :: cs) then [] :: splitFrom sep (sep.length - 1) cs
    else match splitFrom sep 0 cs with
      | [] => [[c]]
      | p :: ps => (c :: p) :: ps

/-- Go `strings.Split(s, sep)` for a non-empty separator: the substrings between
the non-overlapping occurrences of `sep`, found left to right.  The result of
`Split("", sep)` is the one-element slice holding the empty string. -/
def Split (s sep : GoString) : List GoString := splitFrom sep 0 s

/-- Worker of `Replace`, with the same skip counter as `splitFrom`. -/
def replaceFrom (old new : GoString) : Nat → GoString → GoString
  | _, [] => []
  | skip + 1, _ :: cs => replaceFrom old new skip cs
  | 0, c :: cs =>
    if old.isPrefixOf (c :: cs) then new ++ replaceFrom old new (old.length - 1) cs
    else c :: replaceFrom old new 0 cs

/-- Go `strings.Replace(s, old, new, -1)` for a non-empty `old`: every
non-overlapping occurrence of `old`, found left to right, is replaced by `new`. -/
def Replace (s old new : GoString) : GoString := replaceFrom old new 0 s

/-- Go `strings.TrimLeft(s, cutset)`. -/
def TrimLeft (s cutset : GoString) : GoString := s.dropWhile (fun c => decide (c ∈ cutset))

/-- Go `strings.TrimRight(s, cutset)`. -/
def TrimRight (s cutset : GoString) : GoString := (TrimLeft s.reverse cutset).reverse

/-- Go `strings.Trim(s, cutset)`: all leading and trailing bytes contained in
`cutset` removed. -/
def Trim (s cutset : GoString) : GoString := TrimLeft (TrimRight s cutset) cutset

/-- Go `strings.TrimPrefix(s, prefix)`. -/
def TrimPrefix (s pre : GoString) : GoString :=
  if pre.isPrefixOf s then s.drop pre.length else s

/-- Go `strings.Join(elems, sep)`. -/
def Join (elems : List GoString) (sep : GoString) : GoString :=
  match elems with
  | [] => []
  | [e] => e
  | e :: es => e ++ sep ++ Join es sep

end strings

/-- Go slice expression `s[i:]`: panics (`none`) when `i > len(s)`. -/
def sliceFrom (s : GoString) (i : Nat) : Option GoString :=
  if i ≤ s.length then some (s.drop i) else none

/-! ## `models/logic.go`: the answer-parsing step of `callLLM` (lines 66-70) -/

/-- The cutset of both `strings.Trim` calls of `callLLM`. -/
def trimCutset : GoString := " \n\t".toList

/-- Line 66 of `logic.go`:
`move := strings.Trim(strings.Replace(strings.Split(text, "\n")[0], "...", "", -1), " \n\t")`.
The index expression `[0]` panics on an empty slice. -/
def callLLM_move (text : GoString) : Option GoString := do
  let first ← (strings.Split text "\n".toList)[0]?
  pure (strings.Trim (strings.Replace first "...".toList []) trimCutset)

/-- Lines 66-70 of `logic.go`: from the extracted answer text to the returned
`(move, reason)`; `reason := strings.Trim(text[len(move):], " \n\t")`. -/
def callLLM_parse (text : GoString) : Option (GoString × GoString) := do
  let move ← callLLM_move text
  let rest ← sliceFrom text move.length
  pure (move, strings.Trim rest trimCutset)

/-! ## `handlers/handlers.go`: the data model -/

/-- The constant `tokenTTLSeconds` of `handlers.go` (30 days). -/
def tokenTTLSeconds : Int := 60 * 60 * 24 * 30

/-- HTTP status codes used by the handlers. -/
def StatusOK : Nat := 200
/-- Go `http.StatusUnauthorized`. -/
def StatusUnauthorized : Nat := 401
/-- Go `http.StatusPaymentRequired`. -/
def StatusPaymentRequired : Nat := 402
/-- Go `http.StatusMethodNotAllowed`. -/
def StatusMethodNotAllowed : Nat := 405
/-- Go `http.StatusBadRequest`. -/
def StatusBadRequest : Nat := 400
/-- Go `http.StatusInternalServerError`. -/
def StatusInternalServerError : Nat := 500

/-- A document of the Firestore collection `users`, with the fields the
handlers read and write.  `credits` is the stored number, a finite double
(written as `10.0` by `handleRegister` and as a `float64` difference by
`decreaseCredits`), held as the rational number it denotes; `token` and
`tokenCreatedAt` are absent until the first sign-in. -/
structure UserDoc where
  email : GoString
  password : GoString
  credits : ℚ
  token : Option GoString
  tokenCreatedAt : Option Int
  deriving DecidableEq

/-- The collection `users`: its documents in query order.  A document
reference is the position of the document. -/
abbrev Store := List UserDoc

/-- The struct `UserResponse`. -/
structure UserResponse where
  Email : GoString
  Credits : ℚ
  Token : GoString
  deriving DecidableEq

/-- The struct `ChessMoveRequest`. -/
structure ChessMoveRequest where
  Board : GoString
  Provider : GoString
  Model : GoString
  AvailableMoves : List GoString
  InvalidMoves : List GoString
  deriving DecidableEq

/-- The struct `ChessMoveResponse`. -/
structure ChessMoveResponse where
  Move : GoString
  Reason : GoString
  deriving DecidableEq

/-- What a handler reads of the `*http.Request`: the method, the value of
`r.Header.Get("Authorization")` (empty when the header is absent) and the
result of decoding the body into a `ChessMoveRequest` (`none` when
`Decode` returns an error). -/
structure Request where
  Method : GoString
  Authorization : GoString
  Body : Option ChessMoveRequest

/-- What a handler writes to the `http.ResponseWriter`. -/
inductive ReplyBody
  | error (msg : GoString)
  | user (u : UserResponse)
  | move (m : ChessMoveResponse)
  deriving DecidableEq

/-- The value left in `*status` and the body written. -/
structure Reply where
  status : Nat
  body : ReplyBody
  deriving DecidableEq

/-- Failures of the backing store during one handler run: whether the one
query (`GetAll`) and the one write (`Ref.Set`) of the run return an error.
A write that returns an error leaves the collection as it was. -/
structure Faults where
  queryErr : Bool
  setErr : Bool

/-- The run without store failures. -/
def noFaults : Faults := ⟨false, false⟩

/-- Firestore `Collection("users").Where(field, "==", v).Limit(1).Documents(ctx).GetAll()`:
the first document satisfying the filter, with its reference. -/
def queryFirst (p : UserDoc → Bool) : Store → Option (Nat × UserDoc)
  | [] => none
  | d :: ds =>
    if p d then some (0, d)
    else match queryFirst p ds with
      | none => none
      | some (i, x) => some (i + 1, x)

/-- The filter `Where("email", "==", email)`. -/
def emailIs (email : GoString) (d : UserDoc) : Bool := decide (d.email = email)

/-- The filter `Where("token", "==", token)`: the field is present and equal. -/
def tokenIs (token : GoString) (d : UserDoc) : Bool := decide (d.token = some token)

/-- Two's-complement wrap-around of a 64-bit signed integer. -/
def wrapInt64 (x : Int) : Int := (x + 2 ^ 63) % 2 ^ 64 - 2 ^ 63

/-- The test `time.Now().Unix()-createdAt > tokenTTLSeconds` on `int64`. -/
def expired (now createdAt : Int) : Bool := decide (wrapInt64 (now - createdAt) > tokenTTLSeconds)

/-! ## `handlers/handlers.go`: the operations -/

/-- Result of `bearerMiddleware`: the user, or `nil` with the status and
message written, or a run-time panic (the type assertion `.(int64)` on a
document that has a token but no `tokenCreatedAt`). -/
inductive Auth
  | user (u : UserResponse)
  | denied (status : Nat) (msg : GoString)
  | panic
  deriving DecidableEq

/-- The method `bearerMiddleware` (lines 371-410). -/
def bearerMiddleware (f : Faults) (store : Store) (now : Int) (r : Request) : Auth :=
  let txt := r.Authorization
  if txt = [] then .denied StatusUnauthorized "Unauthorized".toList
  else
    let token := strings.TrimPrefix txt "Bearer ".toList
    if token = [] then .denied StatusUnauthorized "Unauthorized".toList
    else if f.queryErr then .denied StatusInternalServerError "Database error".toList
    else match queryFirst (tokenIs token) store with
      | none => .denied StatusUnauthorized "Unauthorized".toList
      | some (_, d) =>
        match d.tokenCreatedAt with
        | none => .panic
        | some createdAt =>
          if expired now createdAt then .denied StatusUnauthorized "Expired".toList
          else .user { Email := d.email, Credits := d.credits, Token := token }

/-- The method `handleRefreshAuth` (lines 99-163).  `now` is the first reading
of the clock (expiry test), `now2` the second (new `tokenCreatedAt`), `uuid`
the result of `uuid.New().String()`.  Returns the store afterwards and the
reply, or `none` for a run-time panic. -/
def handleRefreshAuth (f : Faults) (store : Store) (now now2 : Int) (uuid : GoString)
    (r : Request) : Option (Store × Reply) :=
  if r.Method ≠ "POST".toList then
    some (store, ⟨StatusMethodNotAllowed, .error "Method not allowed".toList⟩)
  else
    let oldToken := r.Authorization
    if oldToken = [] then some (store, ⟨StatusUnauthorized, .error "Unauthorized".toList⟩)
    else
      let oldToken := strings.TrimPrefix oldToken "Bearer ".toList
      if oldToken = [] then some (store, ⟨StatusUnauthorized, .error "Unauthorized".toList⟩)
      else if f.queryErr then
        some (store, ⟨StatusInternalServerError, .error "Database error".toList⟩)
      else match queryFirst (tokenIs oldToken) store with
        | none => some (store, ⟨StatusUnauthorized, .error "Unauthorized".toList⟩)
        | some (ref, d) =>
          match d.tokenCreatedAt with
          | none => none
          | some createdAt =>
            if expired now createdAt then
              some (store, ⟨StatusUnauthorized, .error "Expired".toList⟩)
            else
              let userData := { d with token := some uuid, tokenCreatedAt := some now2 }
              if f.setErr then
                some (store, ⟨StatusInternalServerError, .error "Server error".toList⟩)
              else
                some (store.set ref userData,
                  ⟨StatusOK, .user { Email := userData.email, Credits := userData.credits,
                                     Token := uuid }⟩)

/-- The method `decreaseCredits` (lines 309-335) with the arithmetic on
balances taken exact, over the rationals: the store afterwards and the
returned `error` (`none` for `nil`).  `decreaseCreditsFloat64` below is the
same method with the `float64` subtraction of the source. -/
def decreaseCredits (f : Faults) (store : Store) (n : ℚ) (user : UserResponse) :
    Store × Option GoString :=
  if f.queryErr then (store, some "database error".toList)
  else match queryFirst (emailIs user.Email) store with
    | none => (store, some "user not found".toList)
    | some (ref, userData) =>
      let credits := userData.credits
      if credits < n then (store, some "insufficient credits".toList)
      else if f.setErr then (store, some "server error".toList)
      else (store.set ref { userData with credits := credits - n }, none)

/-! ## Go `float64` arithmetic on finite values

The finite doubles are the numbers `m * 2 ^ e` with `|m| < 2 ^ 53` and
`-1074 ≤ e ≤ 971`.  Multiplied by `2 ^ 1074` they are the integers
`m * 2 ^ k` with `0 ≤ k ≤ 2045`. -/

/-- The scale `2 ^ 1074`: the inverse of the smallest positive double. -/
@[irreducible] def float64Scale : ℕ := 2 ^ 1074

/-- The quotient `a / b` rounded to the nearest integer, a tie to the even one. -/
def roundHalfEvenDiv (a b : ℕ) : ℕ :=
  if 2 * (a % b) < b then a / b
  else if b < 2 * (a % b) then a / b + 1
  else if (a / b) % 2 = 0 then a / b else a / b + 1

/-- The scaled non-negative number `a / b` rounded to the scaled doubles:
with `k = max (⌊log₂ (a / b)⌋ - 52) 0` the neighbouring doubles are the
multiples of `2 ^ k`, and the nearest one is taken, a tie to the even
multiple. -/
def roundScaled (a b : ℕ) : ℕ :=
  roundHalfEvenDiv a (b * 2 ^ (Nat.log2 (a / b) - 52)) * 2 ^ (Nat.log2 (a / b) - 52)

/-- IEEE 754 binary64 rounding (round to nearest, ties to even) of a rational
whose rounded value is finite. -/
def roundFloat64 (x : ℚ) : ℚ :=
  (if x < 0 then -1 else 1) * (roundScaled (x.num.natAbs * float64Scale) x.den : ℚ) / float64Scale

/-- Go `a - b` on two finite `float64` values with a finite result. -/
def float64Sub (a b : ℚ) : ℚ := roundFloat64 (a - b)

/-- The rational `x` is a finite `float64` value. -/
def IsFloat64 (x : ℚ) : Prop :=
  ∃ (m : ℤ) (k : ℕ), |m| < 2 ^ 53 ∧ k ≤ 2045 ∧ x = m * 2 ^ k / float64Scale

/-- The method `decreaseCredits` (lines 309-335) with the `float64`
arithmetic of the source: `credits < n` compares two finite doubles and
`credits - n` is their rounded difference (finite whenever `n ≤ credits` and
`0 ≤ n`, as in the one call `decreaseCredits(1.0, user)`).  Returns the store
afterwards and the returned `error` (`none` for `nil`). -/
def decreaseCreditsFloat64 (f : Faults) (store : Store) (n : ℚ) (user : UserResponse) :
    Store × Option GoString :=
  if f.queryErr then (store, some "database error".toList)
  else match queryFirst (emailIs user.Email) store with
    | none => (store, some "user not found".toList)
    | some (ref, userData) =>
      let credits := userData.credits
      if credits < n then (store, some "insufficient credits".toList)
      else if f.setErr then (store, some "server error".toList)
      else (store.set ref { userData with credits := float64Sub credits n }, none)

/-- What `models.CallLLM` gives back: `(move, reason)`, an `error`, or
`none` for a run-time panic inside the call. -/
abbrev LLMResult := Option (Except GoString (GoString × GoString))

/-- Outcome of `handleChessMove`: the store afterwards, the reply (`none` when
the run panicked), and the calls of `models.CallLLM` made, in order. -/
structure ChessOutcome where
  store : Store
  reply : Option Reply
  llmCalls : List ChessMoveRequest

/-- The method `handleChessMove` (lines 337-369), with `models.CallLLM` as
the parameter `CallLLM`; the charge `h.decreaseCredits(1.0, user)` is
computed in `float64`. -/
def handleChessMove (CallLLM : ChessMoveRequest → LLMResult) (f : Faults) (store : Store)
    (r : Request) (user : UserResponse) : ChessOutcome :=
  if r.Method ≠ "POST".toList then
    ⟨store, some ⟨StatusMethodNotAllowed, .error "Method not allowed".toList⟩, []⟩
  else match r.Body with
    | none => ⟨store, some ⟨StatusBadRequest, .error "Could not parse the JSON request".toList⟩, []⟩
    | some req =>
      match decreaseCreditsFloat64 f store 1 user with
      | (store1, some _) =>
        ⟨store1, some ⟨StatusPaymentRequired, .error "Insufficient credits".toList⟩, []⟩
      | (store1, none) =>
        match CallLLM req with
        | none => ⟨store1, none, [req]⟩
        | some (.error err) => ⟨store1, some ⟨StatusInternalServerError, .error err⟩, [req]⟩
        | some (.ok (move, reason)) =>
          ⟨store1, some ⟨StatusOK, .move { Move := move, Reason := reason }⟩, [req]⟩

/-- The credits stored for the user with the given email: those of the
document the query by email returns. -/
def balanceOf (store : Store) (email : GoString) : Option ℚ :=
  (queryFirst (emailIs email) store).map (fun x => x.2.credits)

/-! ## Decoded JSON values (Go `any` as produced by `encoding/json`) -/

/-- A decoded JSON value: `nil`, `bool`, a number (its literal), `string`,
`[]any`, or `map[string]any` (the members in document order). -/
inductive JSON
  | null
  | bool (b : Bool)
  | number (lit : GoString)
  | string (s : GoString)
  | array (elems : List JSON)
  | object (members : List (GoString × JSON))

namespace JSON

/-- Type assertion `x.(map[string]any)`; `none` is the panic. -/
def asMap : JSON → Option (List (GoString × JSON))
  | .object ms => some ms
  | _ => none

/-- Type assertion `x.([]any)`. -/
def asSlice : JSON → Option (List JSON)
  | .array es => some es
  | _ => none

/-- Type assertion `x.(string)`. -/
def asString : JSON → Option GoString
  | .string s => some s
  | _ => none

/-- Map index `m[key]`: the value stored last under the key, `nil` when the
key is absent. -/
def index (m : List (GoString × JSON)) (key : GoString) : JSON :=
  match m.reverse.find? (fun kv => decide (kv.1 = key)) with
  | some kv => kv.2
  | none => .null

end JSON

/-! ## A decoder for JSON documents (RFC 8259)

Two total passes: a lexer that is a finite-state scan of the bytes, and a
parser that is a stack machine over the tokens. -/

namespace json

/-- Lexical tokens; `bad` marks a lexical error. -/
inductive Token
  | lbrace | rbrace | lbrack | rbrack | colon | comma
  | str (s : GoString)
  | num (lit : GoString)
  | tru | fls | nul
  | bad
  deriving DecidableEq

/-- State of the lexer. The accumulators hold the bytes read so far, reversed. -/
inductive LexMode
  | top
  | str (acc : GoString)
  | esc (acc : GoString)
  | uni (acc : GoString) (hex : List Char)
  | num (acc : GoString)
  | lit (expect : GoString) (tok : Token)
  | dead

/-- JSON insignificant whitespace. -/
def isWs (c : Char) : Bool := c = ' ' || c = '\t' || c = '\n' || c = '\r'

/-- Bytes that can occur in a number literal. -/
def isNumChar (c : Char) : Bool :=
  c.isDigit || c = '-' || c = '+' || c = '.' || c = 'e' || c = 'E'

/-- Whether the literal follows the grammar
`-? (0 | [1-9][0-9]*) (. [0-9]+)? ([eE] [+-]? [0-9]+)?`. -/
def validNumber (s : GoString) : Bool :=
  let s1 := match s with
    | '-' :: r => r
    | _ => s
  let ip := s1.takeWhile Char.isDigit
  let s2 := s1.dropWhile Char.isDigit
  let okInt := !ip.isEmpty && (ip.head? != some '0' || ip.length == 1)
  let fracPart : Bool × GoString := match s2 with
    | '.' :: r => (!(r.takeWhile Char.isDigit).isEmpty, r.dropWhile Char.isDigit)
    | _ => (true, s2)
  let okExp := match fracPart.2 with
    | [] => true
    | e :: r =>
      (e = 'e' || e = 'E') &&
        (let r2 := match r with
          | '+' :: t => t
          | '-' :: t => t
          | _ => r
         !r2.isEmpty && r2.all Char.isDigit)
  okInt && fracPart.1 && okExp

/-- The token for a finished number literal. -/
def numToken (acc : GoString) : Token :=
  if validNumber acc.reverse then .num acc.reverse else .bad

/-- The byte denoted by a one-letter escape. -/
def unescape (c : Char) : Option Char :=
  if c = '"' then some '"'
  else if c = '\\' then some '\\'
  else if c = '/' then some '/'
  else if c = 'b' then some (Char.ofNat 8)
  else if c = 'f' then some (Char.ofNat 12)
  else if c = 'n' then some '\n'
  else if c = 'r' then some '\r'
  else if c = 't' then some '\t'
  else none

/-- Value of a hexadecimal digit. -/
def hexDigit (c : Char) : Option Nat :=
  if c.isDigit then some (c.toNat - '0'.toNat)
  else if 'a'.toNat ≤ c.toNat ∧ c.toNat ≤ 'f'.toNat then some (c.toNat - 'a'.toNat + 10)
  else if 'A'.toNat ≤ c.toNat ∧ c.toNat ≤ 'F'.toNat then some (c.toNat - 'A'.toNat + 10)
  else none

/-- Value of the hexadecimal digits read, most significant first. -/
def hexValue (ds : List Nat) : Nat := ds.foldl (fun a d => 16 * a + d) 0

/-- A byte read between tokens. -/
def lexTop (c : Char) : List Token × LexMode :=
  if isWs c then ([], .top)
  else if c = '{' then ([.lbrace], .top)
  else if c = '}' then ([.rbrace], .top)
  else if c = '[' then ([.lbrack], .top)
  else if c = ']' then ([.rbrack], .top)
  else if c = ':' then ([.colon], .top)
  else if c = ',' then ([.comma], .top)
  else if c = '"' then ([], .str [])
  else if c = '-' || c.isDigit then ([], .num [c])
  else if c = 't' then ([], .lit "rue".toList .tru)
  else if c = 'f' then ([], .lit "alse".toList .fls)
  else if c = 'n' then ([], .lit "ull".toList .nul)
  else ([.bad], .dead)

/-- One step of the lexer: the tokens completed by the byte and the next state.
Inside a string literal a byte below 0x20 is an error. -/
def lexStep : LexMode → Char → List Token × LexMode
  | .dead, _ => ([], .dead)
  | .top, c => lexTop c
  | .str acc, c =>
    if c = '"' then ([.str acc.reverse], .top)
    else if c = '\\' then ([], .esc acc)
    else if c.toNat < 32 then ([.bad], .dead)
    else ([], .str (c :: acc))
  | .esc acc, c =>
    match unescape c with
    | some d => ([], .str (d :: acc))
    | none => if c = 'u' then ([], .uni acc []) else ([.bad], .dead)
  | .uni acc hex, c =>
    match hexDigit c with
    | none => ([.bad], .dead)
    | some _ =>
      if hex.length = 3 then
        ([], .str (Char.ofNat (hexValue ((hex ++ [c]).filterMap hexDigit)) :: acc))
      else ([], .uni acc (hex ++ [c]))
  | .num acc, c =>
    if isNumChar c then ([], .num (c :: acc))
    else
      match numToken acc with
      | .bad => ([.bad], .dead)
      | t => (t :: (lexTop c).1, (lexTop c).2)
  | .lit expect tok, c =>
    match expect with
    | [] => ([.bad], .dead)
    | e :: rest =>
      if c = e then (if rest = [] then ([tok], .top) else ([], .lit rest tok))
      else ([.bad], .dead)

/-- End of input in a lexer state. -/
def lexEnd : LexMode → List Token
  | .top => []
  | .dead => []
  | .num acc => [numToken acc]
  | _ => [.bad]

/-- The lexer. -/
def lex : LexMode → GoString → List Token
  | m, [] => lexEnd m
  | m, c :: cs => (lexStep m c).1 ++ lex (lexStep m c).2 cs

/-- A container under construction: an array with the elements read so far
(reversed), or an object with the members read so far (reversed) and the key
whose value is being read. -/
inductive Frame
  | arr (elems : List JSON)
  | obj (members : List (GoString × JSON)) (key : GoString)

/-- State of the parser. -/
inductive PState
  | val (st : List Frame)
  | arr0 (st : List Frame)
  | obj0 (st : List Frame)
  | key (members : List (GoString × JSON)) (st : List Frame)
  | colon (members : List (GoString × JSON)) (k : GoString) (st : List Frame)
  | afterElem (elems : List JSON) (st : List Frame)
  | afterMember (members : List (GoString × JSON)) (st : List Frame)
  | done (v : JSON)
  | fail

/-- A finished value is handed to the enclosing container. -/
def give (v : JSON) : List Frame → PState
  | [] => .done v
  | .arr es :: st => .afterElem (v :: es) st
  | .obj ms k :: st => .afterMember ((k, v) :: ms) st

/-- A token where a value must start. -/
def startValue (st : List Frame) : Token → PState
  | .lbrace => .obj0 st
  | .lbrack => .arr0 st
  | .str s => give (.string s) st
  | .num l => give (.number l) st
  | .tru => give (.bool true) st
  | .fls => give (.bool false) st
  | .nul => give .null st
  | _ => .fail

/-- One step of the parser. -/
def pstep : PState → Token → PState
  | .val st, t => startValue st t
  | .arr0 st, .rbrack => give (.array []) st
  | .arr0 st, t => startValue (.arr [] :: st) t
  | .obj0 st, .rbrace => give (.object []) st
  | .obj0 st, .str k => .colon [] k st
  | .key ms st, .str k => .colon ms k st
  | .colon ms k st, .colon => .val (.obj ms k :: st)
  | .afterElem es st, .comma => .val (.arr es :: st)
  | .afterElem es st, .rbrack => give (.array es.reverse) st
  | .afterMember ms st, .comma => .key ms st
  | .afterMember ms st, .rbrace => give (.object ms.reverse) st
  | _, _ => .fail

/-- Decoding of a JSON document: the text must be exactly one JSON value,
surrounded by optional whitespace. -/
def Unmarshal (data : GoString) : Option JSON :=
  match (lex .top data).foldl pstep (.val []) with
  | .done v => some v
  | _ => none

end json

/-! ## `models/data.go`: the provider catalogue -/

/-- The struct `Model`. -/
structure Model where
  Name : GoString
  Code : GoString
  URLSuffix : GoString

/-- The struct `Provider`.  `GetOutputFn` can panic (`none`). -/
structure Provider where
  Name : GoString
  Models : List Model
  ApiKey : GoString
  GetApiKeyURL : GoString
  GetOutputFn : JSON → Option GoString
  UrlFn : GoString → GoString → GoString
  AuthFn : GoString → GoString → GoString
  BodyFn : GoString → GoString → GoString → GoString

/-- The entry `"Gemini"` of the map `Models`; `apiKey` is
`os.Getenv("GEMINI_API_KEY")`. -/
def Gemini (apiKey : GoString) : Provider where
  Name := "Gemini".toList
  ApiKey := apiKey
  Models := [
    ⟨"Gemini 2.0 Flash".toList, "gemini-2.0-flash".toList, "gemini-2.0-flash".toList⟩,
    ⟨"Gemini 2.0 Flash-Lite Preview".toList, "gemini-2.0-flash-lite-preview-02-05".toList,
      "gemini-2.0-flash-lite".toList⟩,
    ⟨"Gemini 1.5 Flash".toList, "gemini-1.5-flash".toList, "gemini-1.5-flash".toList⟩,
    ⟨"Gemini 1.5 Flash-8B".toList, "gemini-1.5-flash-8b".toList, "gemini-1.5-flash-8b".toList⟩,
    ⟨"Gemini 1.5 Pro".toList, "gemini-1.5-pro".toList, "gemini-1.5-pro".toList⟩]
  GetApiKeyURL := "https://aistudio.google.com/apikey".toList
  GetOutputFn := fun x => do
    let m ← x.asMap
    let candidates ← (JSON.index m "candidates".toList).asSlice
    let c ← (← candidates[0]?).asMap
    let content ← (JSON.index c "content".toList).asMap
    let parts ← (JSON.index content "parts".toList).asSlice
    let part ← (← parts[0]?).asMap
    (JSON.index part "text".toList).asString
  UrlFn := fun apiKey model =>
    "https://generativelanguage.googleapis.com/v1beta/models/".toList ++ model ++
      ":generateContent?key=".toList ++ apiKey
  AuthFn := fun _ _ => []
  BodyFn := fun _ _ prompt =>
    "\x7b\n\t\t\t\t\"contents\": [\n\t\t\t\t  \x7b\n\t\t\t\t\t\"parts\": [\n\t\t\t\t\t  \x7b\n\t\t\t\t\t\t\"text\": \"".toList
      ++ prompt ++
    "\"\n\t\t\t\t\t  \x7d\n\t\t\t\t\t]\n\t\t\t\t  \x7d\n\t\t\t\t]\n\t\t\t  \x7d".toList

/-- The entry `"OpenAI"` of the map `Models`; `apiKey` is
`os.Getenv("OPENAI_API_KEY")`. -/
def OpenAI (apiKey : GoString) : Provider where
  Name := "OpenAI".toList
  Models := []
  ApiKey := apiKey
  GetApiKeyURL := "https://platform.openai.com/settings/organization/api-keys".toList
  GetOutputFn := fun x => do
    let m ← x.asMap
    let choices ← (JSON.index m "choices".toList).asSlice
    let c ← (← choices[0]?).asMap
    (JSON.index c "text".toList).asString
  UrlFn := fun _ _ => "https://api.openai.com/v1/chat/completions".toList
  AuthFn := fun apiKey _ => "Bearer ".toList ++ apiKey
  BodyFn := fun _ model prompt =>
    "\x7b\n\t\t\t\t\"model\": \"".toList ++ model ++
    "\",\n\t\t\t\t\"temperature\": 0.7,\n\t\t\t\t\"messages\": [\n\t\t\t\t  \x7b\n\t\t\t\t\t\"role\": \"user\",\n\t\t\t\t\t\"content\": \"".toList
      ++ prompt ++
    "\"\n\t\t\t\t  \x7d\n\t\t\t\t]\n\t\t\t  \x7d".toList

/-- The package-level map `Models`, as the lookup `Models[provider]`;
`getenv` is `os.Getenv`. -/
def Models (getenv : GoString → GoString) (provider : GoString) : Option Provider :=
  if provider = "Gemini".toList then some (Gemini (getenv "GEMINI_API_KEY".toList))
  else if provider = "OpenAI".toList then some (OpenAI (getenv "OPENAI_API_KEY".toList))
  else none

/-! ## `models/logic.go`: `callLLM` -/

/-- Go `http.Header`: for each key present, its list of values. -/
abbrev Header := List (GoString × List GoString)

/-- Go `Header.Set(key, value)` for a key in canonical form: the values of the
key are replaced by the single `value`. -/
def Header.Set (h : Header) (key value : GoString) : Header :=
  (h.filter (fun kv => decide (kv.1 ≠ key))) ++ [(key, [value])]

/-- The header lines the request carries under the key (Go `Header.Values`);
empty when the key is absent. -/
def Header.Values (h : Header) (key : GoString) : List GoString :=
  match h.find? (fun kv => decide (kv.1 = key)) with
  | some kv => kv.2
  | none => []

/-- Whether the request carries a header line with that key. -/
def Header.Has (h : Header) (key : GoString) : Bool :=
  h.any (fun kv => decide (kv.1 = key) && !kv.2.isEmpty)

/-- The outbound `*http.Request`. -/
structure HttpRequest where
  Method : GoString
  URL : GoString
  Header : Header
  Body : GoString

/-- The `*http.Response` as far as `callLLM` reads it. -/
structure HttpResponse where
  StatusCode : Nat
  Status : GoString
  Body : GoString

/-- The environment of `callLLM`: `os.Getenv`; `url.Parse` followed by
`URL.String` and the parsing of that string by `http.NewRequest` (`none`
when it fails); `http.DefaultClient.Do`; and
`json.NewDecoder(res.Body).Decode` into an `any`. -/
structure World where
  getenv : GoString → GoString
  urlParse : GoString → Option GoString
  Do : HttpRequest → Except GoString HttpResponse
  Decode : GoString → Option JSON

/-- The prompt built by the `fmt.Sprintf` call of `callLLM` (lines 32-41). -/
def callLLM_prompt (board : GoString) (availableMoves invalidMoves : List GoString) : GoString :=
  "\n\tYou are playing chess against the human. Act as if you were a chess grandmaster of the highest ELO rating.\n\tHere is the current fen string representation of the board:\n\t".toList
    ++ board ++
  "\n\tHere are all the possible moves:\n\t".toList
    ++ strings.Join availableMoves ", ".toList ++
  "\n\tPlease return the next move you would take to win the match using SAN notation. ON YOUR REPONSE FIRST LINE WRITE THE MOVE ONLY.\n\tIn a second line add at most a paragraph about why you chose that move. These are INVALID moves:\n\t".toList
    ++ strings.Join invalidMoves ", ".toList ++
  "\n\t".toList

/-- Lines 22-50 of `callLLM`: the provider and the request handed to
`http.DefaultClient.Do`, or the error returned before any request is made. -/
def callLLM_request (w : World) (board provider model : GoString)
    (availableMoves invalidMoves : List GoString) : Except GoString (Provider × HttpRequest) :=
  match Models w.getenv provider with
  | none => .error ("Provider ".toList ++ provider ++ " not found".toList)
  | some p =>
    let modelURL := p.UrlFn p.ApiKey model
    match w.urlParse modelURL with
    | none => .error "error in parsing URL".toList
    | some parsedURL =>
      let auth := p.AuthFn p.ApiKey model
      let prompt := callLLM_prompt board availableMoves invalidMoves
      let body := p.BodyFn p.ApiKey model prompt
      let req : HttpRequest := ⟨"POST".toList, parsedURL, [], body⟩
      let req := { req with Header := req.Header.Set "Content-Type".toList "application/json".toList }
      let req := { req with Header := req.Header.Set "Authorization".toList auth }
      .ok (p, req)

/-- The function `callLLM` (lines 21-71). -/
def callLLM (w : World) (board provider model : GoString)
    (availableMoves invalidMoves : List GoString) : LLMResult :=
  match callLLM_request w board provider model availableMoves invalidMoves with
  | .error e => some (.error e)
  | .ok (p, req) =>
    match w.Do req with
    | .error e => some (.error ("error in calling LLM: ".toList ++ e))
    | .ok res =>
      if res.StatusCode ≠ StatusOK then
        some (.error ("error in calling LLM: ".toList ++ res.Status))
      else match w.Decode res.Body with
        | none => some (.error "error in decoding LLM response".toList)
        | some out =>
          match p.GetOutputFn out with
          | none => none
          | some text =>
            match callLLM_parse text with
            | none => none
            | some (move, reason) => some (.ok (move, reason))

/-- The function `CallLLM` (lines 13-19). -/
def CallLLM (w : World) (req : ChessMoveRequest) : LLMResult :=
  match callLLM w req.Board req.Provider req.Model req.AvailableMoves req.InvalidMoves with
  | none => none
  | some (.error err) => some (.error ("LLM call returned an error: ".toList ++ err))
  | some (.ok (move, reason)) => some (.ok (move, reason))

/-! ## The claimed move parsing, as the specification words it -/

/-- The part of the text before its first newline. -/
def firstLine (text : GoString) : GoString := text.takeWhile (fun c => c != '\n')

/-- The move as the specification states it: the first line, a leading
`...` stripped, surrounding whitespace trimmed. -/
def moveSpec (text : GoString) : GoString :=
  strings.Trim (strings.TrimPrefix (firstLine text) "...".toList) trimCutset

/-- The reasoning as the specification states it: everything after the
first newline, trimmed; empty when there is no newline. -/
def reasonSpec (text : GoString) : GoString :=
  strings.Trim ((text.dropWhile (fun c => c != '\n')).drop 1) trimCutset

/-! ## Well-formedness of the stored sessions -/

/-- The pointer returned by `bearerMiddleware`: `nil` unless a user was found. -/
def Auth.toUser : Auth → Option UserResponse
  | .user u => some u
  | _ => none

/-- A Unix time in seconds as `time.Now().Unix()` gives it: a non-negative `int64`. -/
def isEpoch (t : Int) : Prop := 0 ≤ t ∧ t < 2 ^ 63

instance (t : Int) : Decidable (isEpoch t) := inferInstanceAs (Decidable (0 ≤ t ∧ t < 2 ^ 63))

/-- A document is well formed when a stored token comes with its
`tokenCreatedAt`, and a stored `tokenCreatedAt` is a Unix time. -/
def docOK (d : UserDoc) : Bool :=
  match d.token, d.tokenCreatedAt with
  | some _, none => false
  | _, some c => decide (0 ≤ c) && decide (c < 2 ^ 63)
  | none, none => true

/-- Every document of the store is well formed. -/
def SessionsOK (store : Store) : Prop := ∀ d ∈ store, docOK d = true

instance (store : Store) : Decidable (SessionsOK store) :=
  inferInstanceAs (Decidable (∀ d ∈ store, docOK d = true))

/-- Stored tokens are unique: no two documents carry the same token. -/
def UniqueTokens (store : Store) : Prop := (store.filterMap (fun d => d.token)).Nodup

instance (store : Store) : Decidable (UniqueTokens store) :=
  inferInstanceAs (Decidable (store.filterMap (fun d : UserDoc => d.token)).Nodup)

/-- The request that presents `token` as a bearer token. -/
def bearerRequest (method : GoString) (token : GoString) (body : Option ChessMoveRequest) :
    Request :=
  ⟨method, "Bearer ".toList ++ token, body⟩

/-! ## Sample data -/

/-- A store with two users: one signed in with one credit, one never signed in. -/
def sampleStore : Store :=
  [ { email := "ann@example.org".toList, password := "h1".toList, credits := 1,
      token := some "tok-ann".toList, tokenCreatedAt := some 1700000000 },
    { email := "bob@example.org".toList, password := "h2".toList, credits := 10,
      token := none, tokenCreatedAt := none } ]

/-- The first user of `sampleStore`, as `bearerMiddleware` returns it. -/
def sampleUser : UserResponse :=
  { Email := "ann@example.org".toList, Credits := 1, Token := "tok-ann".toList }

/-- A store whose only user holds 10 ^ 16 credits (a double: 5 * 10 ^ 15 * 2). -/
def hugeStore : Store :=
  [ { email := "cho@example.org".toList, password := "h3".toList,
      credits := 10000000000000000,
      token := some "tok-cho".toList, tokenCreatedAt := some 1700000000 } ]

/-- The user of `hugeStore`, as `bearerMiddleware` returns it. -/
def hugeUser : UserResponse :=
  { Email := "cho@example.org".toList, Credits := 10000000000000000, Token := "tok-cho".toList }

/-- A move request. -/
def sampleMove : ChessMoveRequest :=
  { Board := "8/8/8/8/8/8/8/K6k w - - 0 1".toList, Provider := "Gemini".toList,
    Model := "gemini-2.0-flash".toList, AvailableMoves := ["Ka2".toList, "Kb1".toList],
    InvalidMoves := [] }

/-- The store after the token of the first user of `sampleStore` has been
refreshed into `tok-new` at time 1700000100. -/
def refreshedStore : Store :=
  [ { email := "ann@example.org".toList, password := "h1".toList, credits := 1,
      token := some "tok-new".toList, tokenCreatedAt := some 1700000100 },
    { email := "bob@example.org".toList, password := "h2".toList, credits := 10,
      token := none, tokenCreatedAt := none } ]

/-- A Gemini `generateContent` response carrying the answer `e4`, newline,
`Good central control.`. -/
def sampleGeminiResponse : GoString :=
  "\x7b\"candidates\": [\x7b\"content\": \x7b\"parts\": [\x7b\"text\": \"e4\\nGood central control.\"\x7d], \"role\": \"model\"\x7d, \"finishReason\": \"STOP\"\x7d]\x7d".toList

/-- An environment in which the keys are set, URLs parse unchanged, the
provider answers 200 with `sampleGeminiResponse`, and bodies are decoded as
JSON documents. -/
def sampleWorld : World where
  getenv := fun name => "key-".toList ++ name
  urlParse := fun u => some u
  Do := fun _ => .ok ⟨200, "200 OK".toList, sampleGeminiResponse⟩
  Decode := json.Unmarshal

/-- The documented Gemini `generateContent` response carrying the text `t`:
`{candidates:[{content:{parts:[{text:t}]}}]}`. -/
def geminiPayload (t : GoString) : JSON :=
  .object [("candidates".toList, .array [.object [("content".toList,
    .object [("parts".toList, .array [.object [("text".toList, .string t)]])])]])]

/-- The documented response of `/v1/chat/completions` carrying the text `t`:
`{choices:[{message:{role:"assistant",content:t}}]}`. -/
def chatCompletionPayload (t : GoString) : JSON :=
  .object [("choices".toList, .array [.object [("message".toList,
    .object [("role".toList, .string "assistant".toList), ("content".toList, .string t)])]])]

/-- The response shape of the legacy `/v1/completions` endpoint:
`{choices:[{text:t}]}`. -/
def legacyCompletionPayload (t : GoString) : JSON :=
  .object [("choices".toList, .array [.object [("text".toList, .string t)]])]

/-- Reading `contents[0].parts[0].text` of a decoded Gemini request body. -/
def geminiPromptField (x : JSON) : Option GoString := do
  let m ← x.asMap
  let contents ← (JSON.index m "contents".toList).asSlice
  let c ← (← contents[0]?).asMap
  let parts ← (JSON.index c "parts".toList).asSlice
  let part ← (← parts[0]?).asMap
  (JSON.index part "text".toList).asString

/-- Reading `messages[0].content` of a decoded OpenAI request body. -/
def openAIPromptField (x : JSON) : Option GoString := do
  let m ← x.asMap
  let messages ← (JSON.index m "messages".toList).asSlice
  let msg ← (← messages[0]?).asMap
  (JSON.index msg "content".toList).asString

/-! ## Lemmas on the string functions -/

theorem splitFrom_ne_nil (sep : GoString) (k : Nat) (s : GoString) :
    strings.splitFrom sep k s ≠ [] := by
  induction s generalizing k with
  | nil => cases k <;> simp [strings.splitFrom]
  | cons c cs ih =>
    cases k with
    | succ k => simpa [strings.splitFrom] using ih k
    | zero =>
      unfold strings.splitFrom
      split
      · simp
      · split
        · simp
        · simp

theorem splitFrom_newline_head (text : GoString) :
    (strings.splitFrom ['\n'] 0 text)[0]? = some (firstLine text) := by
  induction text with
  | nil => simp [strings.splitFrom, firstLine]
  | cons c cs ih =>
    unfold strings.splitFrom
    by_cases h : c = '\n'
    · subst h
      simp [firstLine, List.isPrefixOf]
    · have h1 : List.isPrefixOf ['\n'] (c :: cs) = false := by
        simp [List.isPrefixOf, Ne.symm h]
      rw [h1]
      simp only [Bool.false_eq_true, if_false]
      split
      · rename_i heq
        exact absurd heq (splitFrom_ne_nil _ _ _)
      · rename_i p ps heq
        rw [heq] at ih
        simp only [List.getElem?_cons_zero, Option.some.injEq] at ih
        have hc : (c != '\n') = true := by simpa using h
        simp [firstLine, List.takeWhile, hc, ih]

theorem Split_newline_head (text : GoString) :
    (strings.Split text "\n".toList)[0]? = some (firstLine text) :=
  splitFrom_newline_head text

theorem length_firstLine_le (text : GoString) : (firstLine text).length ≤ text.length := by
  unfold firstLine
  exact (List.takeWhile_sublist _).length_le

theorem length_replaceFrom_nil_le (old : GoString) (k : Nat) (s : GoString) :
    (strings.replaceFrom old [] k s).length ≤ s.length := by
  induction s generalizing k with
  | nil => cases k <;> simp [strings.replaceFrom]
  | cons c cs ih =>
    cases k with
    | succ k =>
      have := ih k
      simp only [strings.replaceFrom, List.length_cons]
      omega
    | zero =>
      unfold strings.replaceFrom
      split
      · have := ih (old.length - 1)
        simp only [List.nil_append, List.length_cons]
        omega
      · have := ih 0
        simp only [List.length_cons]
        omega

theorem length_TrimLeft_le (s cutset : GoString) : (strings.TrimLeft s cutset).length ≤ s.length := by
  unfold strings.TrimLeft
  exact (List.dropWhile_sublist _).length_le

theorem length_Trim_le (s cutset : GoString) : (strings.Trim s cutset).length ≤ s.length := by
  unfold strings.Trim strings.TrimRight
  have h1 := length_TrimLeft_le (strings.TrimLeft s.reverse cutset).reverse cutset
  have h2 := length_TrimLeft_le s.reverse cutset
  simp only [List.length_reverse] at h1 h2
  omega

theorem callLLM_move_eq (text : GoString) :
    callLLM_move text =
      some (strings.Trim (strings.Replace (firstLine text) "...".toList []) trimCutset) := by
  unfold callLLM_move
  rw [Split_newline_head]
  rfl

theorem replaceFrom_skip (old new : GoString) (k : Nat) (s : GoString) :
    strings.replaceFrom old new k s = strings.replaceFrom old new 0 (s.drop k) := by
  induction s generalizing k with
  | nil => cases k <;> simp [strings.replaceFrom]
  | cons c cs ih =>
    cases k with
    | zero => simp
    | succ k => simpa [strings.replaceFrom] using ih k

theorem replaceFrom_of_not_infix (old new : GoString) (s : GoString)
    (h : ¬ List.IsInfix old s) : strings.replaceFrom old new 0 s = s := by
  induction s with
  | nil => simp [strings.replaceFrom]
  | cons c cs ih =>
    unfold strings.replaceFrom
    have h1 : List.isPrefixOf old (c :: cs) = false := by
      cases hp : List.isPrefixOf old (c :: cs) with
      | false => rfl
      | true => exact absurd (List.isPrefixOf_iff_prefix.mp hp).isInfix h
    rw [h1]
    have h2 : ¬ List.IsInfix old cs := fun hi => h (List.infix_cons hi)
    simp [ih h2]

/-! ## Lemmas on the store -/

theorem queryFirst_some {p : UserDoc → Bool} {s : Store} {i : Nat} {d : UserDoc}
    (h : queryFirst p s = some (i, d)) : s[i]? = some d ∧ p d = true := by
  induction s generalizing i with
  | nil => simp [queryFirst] at h
  | cons x xs ih =>
    unfold queryFirst at h
    by_cases hx : p x = true
    · rw [if_pos hx] at h
      simp only [Option.some.injEq, Prod.mk.injEq] at h
      obtain ⟨rfl, rfl⟩ := h
      exact ⟨by simp, hx⟩
    · rw [if_neg hx] at h
      cases hq : queryFirst p xs with
      | none => rw [hq] at h; simp at h
      | some r =>
        obtain ⟨j, y⟩ := r
        rw [hq] at h
        simp only [Option.some.injEq, Prod.mk.injEq] at h
        obtain ⟨rfl, rfl⟩ := h
        simpa using ih hq

theorem queryFirst_eq_none {p : UserDoc → Bool} {s : Store} :
    queryFirst p s = none ↔ ∀ d ∈ s, p d = false := by
  induction s with
  | nil => simp [queryFirst]
  | cons x xs ih =>
    unfold queryFirst
    by_cases hx : p x = true
    · simp [hx]
    · rw [if_neg hx]
      cases hq : queryFirst p xs with
      | none =>
        have := ih.mp hq
        simp only [List.mem_cons, forall_eq_or_imp, true_iff]
        exact ⟨by simpa using hx, this⟩
      | some r =>
        obtain ⟨j, y⟩ := r
        have hy := queryFirst_some hq
        simp only [List.mem_cons, forall_eq_or_imp]
        constructor
        · intro h0
          simp at h0
        · intro h0
          have := h0.2 y (List.getElem?_mem hy.1)
          rw [hy.2] at this
          exact absurd this (by simp)

theorem queryFirst_of_mem {p : UserDoc → Bool} {s : Store} {d : UserDoc}
    (hd : d ∈ s) (hp : p d = true) : ∃ i x, queryFirst p s = some (i, x) := by
  cases hq : queryFirst p s with
  | none =>
    have := queryFirst_eq_none.mp hq d hd
    rw [hp] at this
    exact absurd this (by simp)
  | some r => exact ⟨r.1, r.2, rfl⟩

theorem queryFirst_set_of_others (q : UserDoc → Bool) (s : Store) (i : Nat) (d' : UserDoc)
    (hi : i < s.length)
    (hothers : ∀ j x, s[j]? = some x → j ≠ i → q x = false) :
    queryFirst q (s.set i d') = if q d' = true then some (i, d') else none := by
  induction s generalizing i with
  | nil => simp at hi
  | cons x xs ih =>
    cases i with
    | zero =>
      simp only [List.set_cons_zero]
      unfold queryFirst
      by_cases hq : q d' = true
      · simp [hq]
      · rw [if_neg hq, if_neg hq]
        have : queryFirst q xs = none := by
          rw [queryFirst_eq_none]
          intro y hy
          obtain ⟨j, hj⟩ := List.mem_iff_getElem?.mp hy
          exact hothers (j + 1) y (by simpa using hj) (by omega)
        rw [this]
    | succ i =>
      simp only [List.set_cons_succ]
      unfold queryFirst
      have hx : q x = false := hothers 0 x (by simp) (by omega)
      have hi' : i < xs.length := by simpa using hi
      have := ih i hi' (fun j y hj hne => hothers (j + 1) y (by simpa using hj) (by omega))
      rw [this]
      by_cases hq : q d' = true
      · simp [hx, hq]
      · simp [hx, hq]

theorem queryFirst_set_self {p : UserDoc → Bool} {s : Store} {i : Nat} {d d' : UserDoc}
    (h : queryFirst p s = some (i, d)) (hp : p d' = true) :
    queryFirst p (s.set i d') = some (i, d') := by
  induction s generalizing i with
  | nil => simp [queryFirst] at h
  | cons x xs ih =>
    unfold queryFirst at h
    by_cases hx : p x = true
    · rw [if_pos hx] at h
      simp only [Option.some.injEq, Prod.mk.injEq] at h
      obtain ⟨rfl, rfl⟩ := h
      simp [queryFirst, hp]
    · rw [if_neg hx] at h
      cases hq : queryFirst p xs with
      | none => rw [hq] at h; simp at h
      | some r =>
        obtain ⟨j, y⟩ := r
        rw [hq] at h
        simp only [Option.some.injEq, Prod.mk.injEq] at h
        obtain ⟨rfl, rfl⟩ := h
        simp only [List.set_cons_succ]
        unfold queryFirst
        rw [if_neg hx, ih hq]

theorem uniqueTokens_index {s : Store} (hu : UniqueTokens s) {i j : Nat} {d x : UserDoc}
    {t : GoString} (hi : s[i]? = some d) (hj : s[j]? = some x)
    (hd : d.token = some t) (hx : x.token = some t) : i = j := by
  induction s generalizing i j with
  | nil => simp at hi
  | cons y ys ih =>
    unfold UniqueTokens at hu
    have key : ∀ z ∈ ys, z.token = some t → y.token = some t → False := by
      intro z hz hzt hyt
      simp only [List.filterMap_cons, hyt, List.nodup_cons, List.mem_filterMap] at hu
      exact hu.1 ⟨z, hz, hzt⟩
    have hu' : UniqueTokens ys := by
      unfold UniqueTokens
      cases hy : y.token with
      | none => simpa [List.filterMap_cons, hy] using hu
      | some a =>
        simp only [List.filterMap_cons, hy, List.nodup_cons] at hu
        exact hu.2
    cases i with
    | zero =>
      cases j with
      | zero => rfl
      | succ j =>
        simp only [List.getElem?_cons_zero, Option.some.injEq] at hi
        simp only [List.getElem?_cons_succ] at hj
        subst hi
        exact (key x (List.getElem?_mem hj) hx hd).elim
    | succ i =>
      cases j with
      | zero =>
        simp only [List.getElem?_cons_zero, Option.some.injEq] at hj
        simp only [List.getElem?_cons_succ] at hi
        subst hj
        exact (key d (List.getElem?_mem hi) hd hx).elim
      | succ j =>
        simp only [List.getElem?_cons_succ] at hi hj
        rw [ih hu' hi hj]

theorem wrapInt64_sub {a b : Int} (ha : isEpoch a) (hb : isEpoch b) :
    wrapInt64 (a - b) = a - b := by
  unfold isEpoch at ha hb
  unfold wrapInt64
  norm_num at ha hb ⊢
  omega

theorem TrimPrefix_bearer (token : GoString) :
    strings.TrimPrefix ("Bearer ".toList ++ token) "Bearer ".toList = token := by
  simp [strings.TrimPrefix, List.isPrefixOf]

theorem tokenTTLSeconds_eq : tokenTTLSeconds = 2592000 := by
  norm_num [tokenTTLSeconds]

/-! ## Theorems on the answer parsing of `callLLM` -/

/-- C10: for every answer text the parsing step of `callLLM` does not panic:
`strings.Split(text, "\n")` has a first element, the computed move is not
longer than the text, so `text[len(move):]` is defined, and the step returns
a move and a reason. -/
theorem callLLM_parse_never_panics (text : GoString) :
    (∃ first, (strings.Split text "\n".toList)[0]? = some first) ∧
    (∃ move, callLLM_move text = some move ∧ move.length ≤ text.length ∧
      sliceFrom text move.length = some (text.drop move.length)) ∧
    (∃ move reason, callLLM_parse text = some (move, reason)) := by
  have hlen : (strings.Trim (strings.Replace (firstLine text) "...".toList []) trimCutset).length
      ≤ text.length := by
    have h1 := length_Trim_le (strings.Replace (firstLine text) "...".toList []) trimCutset
    have h2 := length_replaceFrom_nil_le "...".toList 0 (firstLine text)
    have h3 := length_firstLine_le text
    unfold strings.Replace at h1 ⊢
    omega
  refine ⟨⟨_, Split_newline_head text⟩, ⟨_, callLLM_move_eq text, hlen, ?_⟩, ?_⟩
  · unfold sliceFrom
    rw [if_pos hlen]
  · refine ⟨strings.Trim (strings.Replace (firstLine text) "...".toList []) trimCutset,
      strings.Trim (text.drop
        (strings.Trim (strings.Replace (firstLine text) "...".toList []) trimCutset).length)
        trimCutset, ?_⟩
    unfold callLLM_parse
    rw [callLLM_move_eq]
    simp only [Option.bind_eq_bind, Option.some_bind, sliceFrom]
    rw [if_pos hlen]
    rfl

/-- C5: on the answer text `...Nf3`, which has no newline, the parsing step of
`callLLM` returns the reasoning `Nf3`, although everything after the first
newline is empty there; on `...Nf3`, newline, `Develops the knight.` it
returns the whole text as the reasoning. The reasoning is cut at the length
of the move, which is shorter than the first line once the ellipsis or
blanks have been stripped. -/
theorem callLLM_reason_of_ellipsis_answer :
    callLLM_parse "...Nf3".toList = some ("Nf3".toList, "Nf3".toList) ∧
    '\n' ∉ "...Nf3".toList ∧
    reasonSpec "...Nf3".toList = [] ∧
    callLLM_parse "...Nf3\nDevelops the knight.".toList =
      some ("Nf3".toList, "Nf3\nDevelops the knight.".toList) ∧
    reasonSpec "...Nf3\nDevelops the knight.".toList = "Develops the knight.".toList := by
  decide

/-- C6, as stated, fails: on the first line `1...e5` the code removes the
inner `...` and returns `1e5`, while the line has no leading `...` and no
surrounding whitespace, so the stated move is `1...e5`. -/
theorem callLLM_move_inner_ellipsis :
    callLLM_move "1...e5\nDevelops.".toList = some "1e5".toList ∧
    moveSpec "1...e5\nDevelops.".toList = "1...e5".toList ∧
    callLLM_move "1...e5\nDevelops.".toList ≠ some (moveSpec "1...e5\nDevelops.".toList) := by
  decide

/-- C6, amended: the move returned by `callLLM` is the part of the text before
the first newline with every occurrence of `...` removed (not only a leading
one) and then leading and trailing spaces, newlines and tabs trimmed; it is
the stated move whenever the first line holds no `...` after its leading one. -/
theorem callLLM_move_removes_every_ellipsis (text : GoString) :
    callLLM_move text =
      some (strings.Trim (strings.Replace (firstLine text) "...".toList []) trimCutset) ∧
    (¬ List.IsInfix "...".toList (strings.TrimPrefix (firstLine text) "...".toList) →
      callLLM_move text = some (moveSpec text)) := by
  refine ⟨callLLM_move_eq text, fun h => ?_⟩
  rw [callLLM_move_eq, moveSpec]
  congr 2
  unfold strings.TrimPrefix at h ⊢
  by_cases hp : List.isPrefixOf "...".toList (firstLine text) = true
  · rw [if_pos hp] at h ⊢
    obtain ⟨r, hr⟩ := List.isPrefixOf_iff_prefix.mp hp
    rw [← hr] at h ⊢
    have hd : List.drop "...".toList.length ("...".toList ++ r) = r := by simp
    rw [hd] at h ⊢
    have h0 : strings.Replace ("...".toList ++ r) "...".toList [] =
        strings.replaceFrom "...".toList [] 0 r := by
      simp [strings.Replace, strings.replaceFrom, List.isPrefixOf]
    rw [h0]
    exact replaceFrom_of_not_infix _ _ _ h
  · rw [if_neg hp] at h ⊢
    exact replaceFrom_of_not_infix _ _ _ h

/-- The amended C6 at the answers `...Nf3` and `e4`, newline, `Good central control.`. -/
theorem callLLM_move_removes_every_ellipsis_witness :
    callLLM_move "...Nf3".toList = some (moveSpec "...Nf3".toList) ∧
    moveSpec "...Nf3".toList = "Nf3".toList ∧
    callLLM_move "e4\nGood central control.".toList =
      some (moveSpec "e4\nGood central control.".toList) ∧
    moveSpec "e4\nGood central control.".toList = "e4".toList :=
  ⟨(callLLM_move_removes_every_ellipsis "...Nf3".toList).2 (by decide), by decide,
   (callLLM_move_removes_every_ellipsis "e4\nGood central control.".toList).2 (by decide),
   by decide⟩

theorem dropWhile_append_of_all (p : Char → Bool) (l m : GoString)
    (h : ∀ x ∈ l, p x = true) : (l ++ m).dropWhile p = m.dropWhile p := by
  induction l with
  | nil => rfl
  | cons a l ih =>
    have ha : p a = true := h a (List.mem_cons_self _ _)
    simp only [List.cons_append, List.dropWhile_cons, ha, if_true]
    exact ih (fun x hx => h x (List.mem_cons_of_mem _ hx))

theorem dropWhile_append_of_exists (p : Char → Bool) (l m : GoString)
    (h : ∃ x ∈ l, p x = false) : (l ++ m).dropWhile p = l.dropWhile p ++ m := by
  induction l with
  | nil => simp at h
  | cons a l ih =>
    cases ha : p a with
    | false => simp [List.dropWhile_cons, ha]
    | true =>
      simp only [List.cons_append, List.dropWhile_cons, ha, if_true]
      apply ih
      obtain ⟨x, hx, hpx⟩ := h
      rcases List.mem_cons.mp hx with rfl | hx
      · rw [ha] at hpx
        exact absurd hpx (by simp)
      · exact ⟨x, hx, hpx⟩

theorem Trim_cons_of_mem (c : Char) (s cutset : GoString) (hc : c ∈ cutset) :
    strings.Trim (c :: s) cutset = strings.Trim s cutset := by
  unfold strings.Trim strings.TrimRight strings.TrimLeft
  have hpc : (fun c => decide (c ∈ cutset)) c = true := by simpa using hc
  by_cases hall : ∀ x ∈ s.reverse, (fun c => decide (c ∈ cutset)) x = true
  · rw [List.reverse_cons, dropWhile_append_of_all _ _ _ hall]
    have h2 : s.reverse.dropWhile (fun c => decide (c ∈ cutset)) = [] := by
      have := dropWhile_append_of_all _ s.reverse [] hall
      simpa using this
    rw [h2]
    simp [List.dropWhile_cons, hc]
  · have hex : ∃ x ∈ s.reverse, (fun c => decide (c ∈ cutset)) x = false := by
      by_contra hne
      apply hall
      intro x hx
      by_contra hpx
      exact hne ⟨x, hx, by simpa using hpx⟩
    rw [List.reverse_cons, dropWhile_append_of_exists _ _ _ hex]
    simp only [List.reverse_append, List.reverse_cons, List.reverse_nil, List.nil_append,
      List.singleton_append, List.dropWhile_cons, hpc, if_true]

theorem firstLine_append_rest (text : GoString) :
    text.drop (firstLine text).length = text.dropWhile (fun c => c != '\n') := by
  unfold firstLine
  induction text with
  | nil => rfl
  | cons a l ih =>
    cases ha : (a != '\n') with
    | false => simp [List.takeWhile_cons, List.dropWhile_cons, ha]
    | true => simpa [List.takeWhile_cons, List.dropWhile_cons, ha] using ih

/-- Where the first line of the answer is itself the move (nothing was
removed or trimmed from it), the reasoning returned by `callLLM` is everything
after the first newline, trimmed. -/
theorem callLLM_reason_of_plain_first_line (text move reason : GoString)
    (h : callLLM_parse text = some (move, reason)) (hplain : move = firstLine text) :
    reason = reasonSpec text := by
  unfold callLLM_parse at h
  rw [callLLM_move_eq] at h
  simp only [Option.bind_eq_bind, Option.some_bind] at h
  have hm : strings.Trim (strings.Replace (firstLine text) "...".toList []) trimCutset = move := by
    cases hs : sliceFrom text
        (strings.Trim (strings.Replace (firstLine text) "...".toList []) trimCutset).length with
    | none => rw [hs] at h; simp at h
    | some rest =>
      rw [hs] at h
      simp only [Option.some_bind] at h
      have := Option.some.inj h
      exact (Prod.mk.inj this).1
  rw [hm] at h
  unfold sliceFrom at h
  have hlen : move.length ≤ text.length := by
    rw [hplain]
    exact length_firstLine_le text
  rw [if_pos hlen] at h
  simp only [Option.some_bind] at h
  have hr : strings.Trim (text.drop move.length) trimCutset = reason :=
    (Prod.mk.inj (Option.some.inj h)).2
  rw [← hr, hplain, firstLine_append_rest]
  unfold reasonSpec
  cases hd : text.dropWhile (fun c => c != '\n') with
  | nil => rfl
  | cons a l =>
    have ha : a = '\n' := by
      have := List.head_dropWhile_not (fun c => c != '\n') text (by rw [hd]; simp)
      simpa [hd] using this
    subst ha
    rw [List.drop_one, List.tail_cons]
    exact Trim_cons_of_mem _ _ _ (by decide)

/-! ## Theorems on the credit ledger -/

theorem sampleStore_balance : balanceOf sampleStore sampleUser.Email = some 1 := by
  decide

theorem float64Scale_eq : float64Scale = 2 ^ 1074 := by
  unfold float64Scale
  rfl

theorem float64Scale_pos : 0 < float64Scale := by
  rw [float64Scale_eq]
  exact pow_pos (by decide) _

theorem roundHalfEvenDiv_mul (n d : ℕ) (hd : 0 < d) : roundHalfEvenDiv (n * d) d = n := by
  unfold roundHalfEvenDiv
  simp [Nat.mul_mod_left, hd, Nat.mul_div_cancel _ hd]

theorem roundScaled_of_dvd (n b j : ℕ) (hb : 0 < b) (hdvd : 2 ^ j ∣ n) (hlt : n < 2 ^ (53 + j)) :
    roundScaled (n * b) b = n := by
  unfold roundScaled
  rw [Nat.mul_div_cancel _ hb]
  have hK : Nat.log2 n - 52 ≤ j := by
    by_cases hn : n = 0
    · subst hn
      simp [Nat.log2]
    · have := (Nat.log2_lt hn).mpr hlt
      omega
  obtain ⟨n', hn'⟩ := (pow_dvd_pow 2 hK).trans hdvd
  have hD : 0 < b * 2 ^ (Nat.log2 n - 52) := Nat.mul_pos hb (pow_pos (by decide) _)
  have ha : n * b = n' * (b * 2 ^ (Nat.log2 n - 52)) := by
    conv_lhs => rw [hn']
    ring
  rw [ha, roundHalfEvenDiv_mul _ _ hD]
  conv_rhs => rw [hn']
  ring

theorem num_mul_scale (x : ℚ) (n S : ℕ) (hS : 0 < S) (hx : x = (n : ℚ) / S) :
    x.num.natAbs * S = n * x.den := by
  have hS' : (0 : ℚ) < S := by exact_mod_cast hS
  have hx0 : 0 ≤ x := by rw [hx]; positivity
  have hnum : 0 ≤ x.num := Rat.num_nonneg.mpr hx0
  have hd' : (x.den : ℚ) ≠ 0 := by exact_mod_cast x.den_pos.ne'
  have h1 : (x.num : ℚ) / x.den = (n : ℚ) / S := by rw [Rat.num_div_den, hx]
  have h2 : (x.num : ℚ) * S = n * x.den := by
    field_simp at h1
    linarith
  have h3 : (x.num.natAbs : ℤ) = x.num := Int.natAbs_of_nonneg hnum
  have h4 : ((x.num.natAbs * S : ℕ) : ℚ) = ((n * x.den : ℕ) : ℚ) := by
    have h5 : ((x.num.natAbs : ℕ) : ℚ) = (x.num : ℚ) := by
      rw [← h3]
      rfl
    rw [Nat.cast_mul, Nat.cast_mul, h5, h2]
  exact Nat.cast_injective h4

theorem roundFloat64_of_scaled (x : ℚ) (n j : ℕ) (hx : x = (n : ℚ) / float64Scale)
    (hdvd : 2 ^ j ∣ n) (hlt : n < 2 ^ (53 + j)) : roundFloat64 x = x := by
  have hS : (0 : ℚ) < float64Scale := by exact_mod_cast float64Scale_pos
  have hx0 : 0 ≤ x := by rw [hx]; positivity
  unfold roundFloat64
  rw [num_mul_scale x n float64Scale float64Scale_pos hx,
    roundScaled_of_dvd n x.den j x.den_pos hdvd hlt, if_neg (not_lt.mpr hx0), one_mul]
  exact hx.symm

theorem float64Sub_one_exact (b : ℚ) (hf : IsFloat64 b) (h1 : 1 ≤ b) (h2 : b ≤ 2 ^ 53) :
    float64Sub b 1 = b - 1 := by
  obtain ⟨m, k, hm, hk, hb⟩ := hf
  have hS : (0 : ℚ) < float64Scale := by exact_mod_cast float64Scale_pos
  have hmpos : 0 < m := by
    by_contra hneg
    have hm0 : m ≤ 0 := not_lt.mp hneg
    have : b ≤ 0 := by
      rw [hb]
      apply div_nonpos_of_nonpos_of_nonneg
      · exact mul_nonpos_of_nonpos_of_nonneg (by exact_mod_cast hm0) (by positivity)
      · positivity
    linarith
  obtain ⟨M, rfl⟩ := Int.eq_ofNat_of_zero_le hmpos.le
  have hM : M < 2 ^ 53 := by
    have := (abs_lt.mp hm).2
    exact_mod_cast this
  have hbN : b = ((M * 2 ^ k : ℕ) : ℚ) / float64Scale := by
    rw [hb]
    push_cast
    rfl
  have hge : float64Scale ≤ M * 2 ^ k := by
    have : (1 : ℚ) ≤ ((M * 2 ^ k : ℕ) : ℚ) / float64Scale := by rw [← hbN]; exact h1
    rw [le_div_iff₀ hS, one_mul] at this
    exact_mod_cast this
  have hle : M * 2 ^ k ≤ 2 ^ 53 * float64Scale := by
    have : ((M * 2 ^ k : ℕ) : ℚ) / float64Scale ≤ 2 ^ 53 := by rw [← hbN]; exact h2
    rw [div_le_iff₀ hS] at this
    have h' : ((M * 2 ^ k : ℕ) : ℚ) ≤ ((2 ^ 53 * float64Scale : ℕ) : ℚ) := by
      rw [Nat.cast_mul (2 ^ 53) float64Scale, Nat.cast_pow]
      exact this
    exact Nat.cast_le.mp h'
  unfold float64Sub
  apply roundFloat64_of_scaled (b - 1) (M * 2 ^ k - float64Scale) (min k 1074)
  · rw [hbN, Nat.cast_sub hge, sub_div, div_self hS.ne']
  · apply Nat.dvd_sub'
    · exact Dvd.dvd.mul_left (pow_dvd_pow 2 (min_le_left _ _)) M
    · rw [float64Scale_eq]
      exact pow_dvd_pow 2 (min_le_right _ _)
  · have hSpos := float64Scale_pos
    by_cases hk' : k ≤ 1074
    · rw [min_eq_left hk', pow_add]
      have : M * 2 ^ k < 2 ^ 53 * 2 ^ k := Nat.mul_lt_mul_of_pos_right hM (pow_pos (by decide) _)
      generalize M * 2 ^ k = A at *
      generalize 2 ^ 53 * 2 ^ k = B at *
      generalize float64Scale = S at *
      omega
    · rw [min_eq_right (by omega), pow_add]
      rw [← float64Scale_eq]
      generalize M * 2 ^ k = A at *
      generalize 2 ^ 53 * float64Scale = B at *
      generalize float64Scale = S at *
      omega

theorem isFloat64_1e16 : IsFloat64 10000000000000000 := by
  refine ⟨5000000000000000, 1075, by norm_num, by norm_num, ?_⟩
  have hS : ((float64Scale : ℕ) : ℚ) ≠ 0 := by exact_mod_cast float64Scale_pos.ne'
  have h2 : (2 : ℚ) ^ 1075 = 2 * float64Scale := by
    rw [float64Scale_eq, Nat.cast_pow, Nat.cast_ofNat, pow_succ, mul_comm]
  rw [h2, ← mul_assoc, mul_div_assoc, div_self hS]
  norm_num

theorem log2_mul_pow (n j : ℕ) (hn : n ≠ 0) : Nat.log2 (n * 2 ^ j) = Nat.log2 n + j := by
  rw [Nat.log2_eq_log_two, Nat.log2_eq_log_two]
  induction j with
  | zero => simp
  | succ j ih =>
    rw [pow_succ, ← mul_assoc, Nat.log_mul_base (by decide) (Nat.mul_ne_zero hn (by positivity)), ih]
    rfl

theorem roundHalfEvenDiv_mul_right (a d s : ℕ) (hs : 0 < s) :
    roundHalfEvenDiv (a * s) (d * s) = roundHalfEvenDiv a d := by
  unfold roundHalfEvenDiv
  rw [Nat.mul_mod_mul_right, Nat.mul_div_mul_right _ _ hs]
  have e1 : 2 * (a % d * s) < d * s ↔ 2 * (a % d) < d := by
    rw [← mul_assoc]
    exact Nat.mul_lt_mul_right hs
  have e2 : d * s < 2 * (a % d * s) ↔ d < 2 * (a % d) := by
    rw [← mul_assoc]
    exact Nat.mul_lt_mul_right hs
  simp only [e1, e2]

/-- Rounding a scaled integer of at least 53 bits does not depend on the scale. -/
theorem roundScaled_scale (n : ℕ) (h : 52 ≤ Nat.log2 n) (hn : n ≠ 0) :
    roundScaled (n * float64Scale) 1 =
      roundHalfEvenDiv n (2 ^ (Nat.log2 n - 52)) * 2 ^ (Nat.log2 n - 52) * float64Scale := by
  unfold roundScaled
  rw [Nat.div_one, float64Scale_eq, log2_mul_pow n 1074 hn, one_mul]
  have hK : Nat.log2 n + 1074 - 52 = (Nat.log2 n - 52) + 1074 := by omega
  rw [hK, pow_add, roundHalfEvenDiv_mul_right _ _ _ (pow_pos (by decide) _), mul_assoc]

theorem log2_9999999999999999 : Nat.log2 9999999999999999 = 53 := by
  rw [Nat.log2_eq_log_two, Nat.log_eq_iff (Or.inl (by decide))]
  norm_num

theorem roundScaled_1e16 :
    roundScaled (9999999999999999 * float64Scale) 1 = 10000000000000000 * float64Scale := by
  rw [roundScaled_scale _ (by rw [log2_9999999999999999]; decide) (by decide),
    log2_9999999999999999]
  have : roundHalfEvenDiv 9999999999999999 (2 ^ (53 - 52)) * 2 ^ (53 - 52) = 10000000000000000 := by
    decide
  rw [this]

theorem float64Sub_1e16 : float64Sub 10000000000000000 1 = 10000000000000000 := by
  have h : ((10000000000000000 : ℚ) - 1) = ((9999999999999999 : ℕ) : ℚ) := by norm_num
  have hS : ((float64Scale : ℕ) : ℚ) ≠ 0 := by exact_mod_cast float64Scale_pos.ne'
  unfold float64Sub
  rw [h]
  unfold roundFloat64
  simp only [Rat.num_natCast, Rat.den_natCast, Int.natAbs_ofNat, roundScaled_1e16]
  rw [if_neg (by norm_num), Nat.cast_mul, one_mul, mul_div_assoc, div_self hS]
  norm_num

theorem isFloat64_one : IsFloat64 1 := by
  refine ⟨1, 1074, by norm_num, by norm_num, ?_⟩
  have hS : ((float64Scale : ℕ) : ℚ) ≠ 0 := by exact_mod_cast float64Scale_pos.ne'
  have h2 : (2 : ℚ) ^ 1074 = float64Scale := by
    rw [float64Scale_eq, Nat.cast_pow, Nat.cast_ofNat]
  rw [h2, Int.cast_one, one_mul, div_self hS]

theorem float64Sub_one_one : float64Sub 1 1 = 0 := by
  unfold float64Sub
  rw [sub_self]
  exact roundFloat64_of_scaled 0 0 0 (by simp) (by simp) (by norm_num)

/-! ## Theorems on the gated operation -/

theorem decreaseCreditsFloat64_behaviour (f : Faults) (store : Store) (n : ℚ)
    (user : UserResponse) (b : ℚ) (hb : balanceOf store user.Email = some b) :
    (b < n → ∃ e, decreaseCreditsFloat64 f store n user = (store, some e)) ∧
    (n ≤ b → f.queryErr = false → f.setErr = false →
      ∃ ref d, queryFirst (emailIs user.Email) store = some (ref, d) ∧ d.credits = b ∧
        decreaseCreditsFloat64 f store n user =
          (store.set ref { d with credits := float64Sub b n }, none)) ∧
    (∀ store1, decreaseCreditsFloat64 f store n user = (store1, none) →
      balanceOf store1 user.Email = some (float64Sub b n) ∧ n ≤ b) ∧
    (∀ store1 e, decreaseCreditsFloat64 f store n user = (store1, some e) → store1 = store) := by
  unfold balanceOf at hb
  cases hq : queryFirst (emailIs user.Email) store with
  | none => rw [hq] at hb; simp at hb
  | some r =>
    obtain ⟨ref, d⟩ := r
    rw [hq] at hb
    simp only [Option.map_some', Option.some.injEq] at hb
    have hmail : emailIs user.Email d = true := (queryFirst_some hq).2
    refine ⟨?_, ?_, ?_, ?_⟩
    · intro hlt
      unfold decreaseCreditsFloat64
      cases f.queryErr with
      | true => exact ⟨_, rfl⟩
      | false =>
        simp only [Bool.false_eq_true, if_false, hq, hb, hlt, if_true]
        exact ⟨_, rfl⟩
    · intro hle hqe hse
      refine ⟨ref, d, rfl, hb, ?_⟩
      unfold decreaseCreditsFloat64
      simp only [hqe, hse, Bool.false_eq_true, if_false, hq, hb, not_lt.mpr hle]
    · intro store1 h
      unfold decreaseCreditsFloat64 at h
      cases hqe : f.queryErr with
      | true => simp [hqe] at h
      | false =>
        simp only [hqe, Bool.false_eq_true, if_false, hq, hb] at h
        by_cases hlt : b < n
        · simp [hlt] at h
        · rw [if_neg hlt] at h
          cases hse : f.setErr with
          | true => simp [hse] at h
          | false =>
            simp only [hse, Bool.false_eq_true, if_false, Prod.mk.injEq, and_true] at h
            subst h
            refine ⟨?_, not_lt.mp hlt⟩
            unfold balanceOf
            rw [queryFirst_set_self hq (by simpa [emailIs] using hmail)]
            rfl
    · intro store1 e h
      unfold decreaseCreditsFloat64 at h
      cases hqe : f.queryErr with
      | true =>
        simp only [hqe, if_true, Prod.mk.injEq] at h
        exact h.1.symm
      | false =>
        simp only [hqe, Bool.false_eq_true, if_false, hq, hb] at h
        by_cases hlt : b < n
        · simp only [hlt, if_true, Prod.mk.injEq] at h
          exact h.1.symm
        · rw [if_neg hlt] at h
          cases hse : f.setErr with
          | true =>
            simp only [hse, if_true, Prod.mk.injEq] at h
            exact h.1.symm
          | false => simp [hse] at h

/-- Where the `float64` difference is the exact one, the two renderings of
`decreaseCredits` agree. -/
theorem decreaseCreditsFloat64_eq_of_exact (f : Faults) (store : Store) (n : ℚ)
    (user : UserResponse) (b : ℚ) (hb : balanceOf store user.Email = some b)
    (hexact : float64Sub b n = b - n) :
    decreaseCreditsFloat64 f store n user = decreaseCredits f store n user := by
  unfold balanceOf at hb
  cases hq : queryFirst (emailIs user.Email) store with
  | none => rw [hq] at hb; simp at hb
  | some r =>
    obtain ⟨ref, d⟩ := r
    rw [hq] at hb
    simp only [Option.map_some', Option.some.injEq] at hb
    unfold decreaseCreditsFloat64 decreaseCredits
    simp only [hq, hb, hexact]

/-- The shape of one run of `handleChessMove` on a POST whose body decodes. -/
theorem handleChessMove_run (CallLLM : ChessMoveRequest → LLMResult) (g : Faults) (s : Store)
    (q : Request) (rq : ChessMoveRequest) (user : UserResponse)
    (hqm : q.Method = "POST".toList) (hqb : q.Body = some rq) :
    (∀ s1 e, decreaseCreditsFloat64 g s 1 user = (s1, some e) →
      handleChessMove CallLLM g s q user =
        ⟨s1, some ⟨StatusPaymentRequired, .error "Insufficient credits".toList⟩, []⟩) ∧
    (∀ s1, decreaseCreditsFloat64 g s 1 user = (s1, none) →
      (handleChessMove CallLLM g s q user).store = s1 ∧
      (handleChessMove CallLLM g s q user).llmCalls = [rq] ∧
      (∀ move reason, CallLLM rq = some (.ok (move, reason)) →
        (handleChessMove CallLLM g s q user).reply =
          some ⟨StatusOK, .move { Move := move, Reason := reason }⟩)) := by
  constructor
  · intro s1 e hd
    unfold handleChessMove
    simp only [hqm, hqb, hd, ne_eq, not_true_eq_false, if_false]
  · intro s1 hd
    unfold handleChessMove
    simp only [hqm, hqb, hd, ne_eq, not_true_eq_false, if_false]
    cases hc : CallLLM rq with
    | none => simp
    | some res =>
      cases res with
      | error err => simp
      | ok mr =>
        obtain ⟨m, rs⟩ := mr
        simp

theorem hugeStore_balance : balanceOf hugeStore hugeUser.Email = some 10000000000000000 := by
  decide

set_option maxRecDepth 1000000 in
theorem CallLLM_sampleWorld :
    CallLLM sampleWorld sampleMove = some (.ok ("e4".toList, "Good central control.".toList)) := by
  rfl

/-- C1, as stated, fails: at the stored balance 10 ^ 16, which is a `float64`
value, `handleChessMove` calls the provider and the stored balance afterwards
is 10 ^ 16 again, not 10 ^ 16 - 1: the `float64` difference `1e16 - 1.0` is a
tie between two doubles and rounds back to `1e16`. -/
theorem handleChessMove_huge_balance_not_reduced :
    IsFloat64 10000000000000000 ∧
    balanceOf hugeStore hugeUser.Email = some 10000000000000000 ∧
    (handleChessMove (CallLLM sampleWorld) noFaults hugeStore
        (bearerRequest "POST".toList "tok-cho".toList (some sampleMove)) hugeUser).llmCalls
      = [sampleMove] ∧
    balanceOf (handleChessMove (CallLLM sampleWorld) noFaults hugeStore
        (bearerRequest "POST".toList "tok-cho".toList (some sampleMove)) hugeUser).store
      hugeUser.Email = some 10000000000000000 ∧
    balanceOf (handleChessMove (CallLLM sampleWorld) noFaults hugeStore
        (bearerRequest "POST".toList "tok-cho".toList (some sampleMove)) hugeUser).store
      hugeUser.Email ≠ some (10000000000000000 - 1) := by
  have hbeh := decreaseCreditsFloat64_behaviour noFaults hugeStore 1 hugeUser
    10000000000000000 hugeStore_balance
  obtain ⟨ref, d, -, -, hd⟩ := hbeh.2.1 (by norm_num) rfl rfl
  have hrun := (handleChessMove_run (CallLLM sampleWorld) noFaults hugeStore
    (bearerRequest "POST".toList "tok-cho".toList (some sampleMove)) sampleMove hugeUser
    rfl rfl).2 _ hd
  have hd1 : decreaseCreditsFloat64 noFaults hugeStore 1 hugeUser =
      ((handleChessMove (CallLLM sampleWorld) noFaults hugeStore
        (bearerRequest "POST".toList "tok-cho".toList (some sampleMove)) hugeUser).store,
        none) := by
    rw [hrun.1]
    exact hd
  have hbal := (hbeh.2.2.1 _ hd1).1
  rw [float64Sub_1e16] at hbal
  refine ⟨isFloat64_1e16, hugeStore_balance, hrun.2.1, hbal, ?_⟩
  rw [hbal]
  norm_num

/-- C1, amended: for a user with a stored balance `b` and a POST whose body
decodes, `handleChessMove` calls `models.CallLLM` only after
`decreaseCredits(1.0)` has succeeded, which needs `1 ≤ b` and replaces the
stored balance by the `float64` difference `b - 1.0`; that difference is
exactly `b - 1` for every `float64` balance up to `2 ^ 53`. With `b < 1` it
answers 402, leaves the store unchanged and makes no call; with `b = 1` and
the store answering, the first request makes one call and leaves the balance
0 (status 200 with the answer of the provider when the provider succeeds),
and any second request is answered 402 with the balance still 0 and no call. -/
theorem handleChessMove_charges_before_call (CallLLM : ChessMoveRequest → LLMResult)
    (f : Faults) (store : Store) (r : Request) (user : UserResponse) (req : ChessMoveRequest)
    (b : ℚ) (hm : r.Method = "POST".toList) (hbody : r.Body = some req)
    (hb : balanceOf store user.Email = some b) :
    ((handleChessMove CallLLM f store r user).llmCalls ≠ [] →
      decreaseCreditsFloat64 f store 1 user =
        ((handleChessMove CallLLM f store r user).store, none) ∧
      1 ≤ b ∧
      balanceOf (handleChessMove CallLLM f store r user).store user.Email =
        some (float64Sub b 1) ∧
      (IsFloat64 b → b ≤ 2 ^ 53 →
        balanceOf (handleChessMove CallLLM f store r user).store user.Email = some (b - 1))) ∧
    (b < 1 →
      (handleChessMove CallLLM f store r user).reply =
        some ⟨StatusPaymentRequired, .error "Insufficient credits".toList⟩ ∧
      (handleChessMove CallLLM f store r user).store = store ∧
      (handleChessMove CallLLM f store r user).llmCalls = []) ∧
    (b = 1 → f.queryErr = false → f.setErr = false →
      (handleChessMove CallLLM f store r user).llmCalls = [req] ∧
      balanceOf (handleChessMove CallLLM f store r user).store user.Email = some 0 ∧
      (∀ move reason, CallLLM req = some (.ok (move, reason)) →
        (handleChessMove CallLLM f store r user).reply =
          some ⟨StatusOK, .move { Move := move, Reason := reason }⟩) ∧
      (∀ (f2 : Faults) (r2 : Request) (req2 : ChessMoveRequest),
        r2.Method = "POST".toList → r2.Body = some req2 →
        (handleChessMove CallLLM f2 (handleChessMove CallLLM f store r user).store r2 user).reply =
          some ⟨StatusPaymentRequired, .error "Insufficient credits".toList⟩ ∧
        balanceOf
          (handleChessMove CallLLM f2 (handleChessMove CallLLM f store r user).store r2 user).store
          user.Email = some 0 ∧
        (handleChessMove CallLLM f2 (handleChessMove CallLLM f store r user).store r2 user).llmCalls
          = [])) := by
  have hspec := decreaseCreditsFloat64_behaviour f store 1 user b hb
  obtain ⟨hfail, hok⟩ := handleChessMove_run CallLLM f store r req user hm hbody
  refine ⟨?_, ?_, ?_⟩
  · intro hcalls
    cases hd : decreaseCreditsFloat64 f store 1 user with
    | mk s1 e =>
      cases e with
      | some e =>
        rw [hfail s1 e hd] at hcalls
        exact absurd rfl hcalls
      | none =>
        obtain ⟨hs, -, -⟩ := hok s1 hd
        obtain ⟨hbal, hge⟩ := hspec.2.2.1 s1 hd
        rw [hs]
        refine ⟨rfl, hge, hbal, ?_⟩
        intro hfl hle
        rw [hbal, float64Sub_one_exact b hfl hge hle]
  · intro hlt
    obtain ⟨e, hd⟩ := hspec.1 hlt
    rw [hfail store e hd]
    exact ⟨rfl, rfl, rfl⟩
  · intro hb1 hqe hse
    obtain ⟨ref, d, -, -, hd⟩ := hspec.2.1 (by rw [hb1]) hqe hse
    obtain ⟨hs, hc, hr⟩ := hok _ hd
    have hd1 : decreaseCreditsFloat64 f store 1 user =
        ((handleChessMove CallLLM f store r user).store, none) := by rw [hs]; exact hd
    have hbal := (hspec.2.2.1 _ hd1).1
    rw [hb1, float64Sub_one_one] at hbal
    refine ⟨hc, hbal, hr, ?_⟩
    intro f2 r2 req2 hm2 hb2
    have hspec2 := decreaseCreditsFloat64_behaviour f2 _ 1 user 0 hbal
    obtain ⟨e, hd2⟩ := hspec2.1 (by norm_num)
    rw [(handleChessMove_run CallLLM f2 _ r2 req2 user hm2 hb2).1 _ e hd2]
    exact ⟨rfl, hbal, rfl⟩

/-- The amended C1 at the sample store, with a provider that answers `e4`:
the user with one credit is served once and charged exactly one credit, the
next request is refused with 402 and without a call. -/
theorem handleChessMove_charges_before_call_witness :
    (handleChessMove (CallLLM sampleWorld) noFaults sampleStore
        (bearerRequest "POST".toList "tok-ann".toList (some sampleMove)) sampleUser).llmCalls
      = [sampleMove] ∧
    (handleChessMove (CallLLM sampleWorld) noFaults sampleStore
        (bearerRequest "POST".toList "tok-ann".toList (some sampleMove)) sampleUser).reply
      = some ⟨StatusOK, .move ⟨"e4".toList, "Good central control.".toList⟩⟩ ∧
    balanceOf (handleChessMove (CallLLM sampleWorld) noFaults sampleStore
        (bearerRequest "POST".toList "tok-ann".toList (some sampleMove)) sampleUser).store
      sampleUser.Email = some 0 ∧
    (handleChessMove (CallLLM sampleWorld) noFaults
        (handleChessMove (CallLLM sampleWorld) noFaults sampleStore
          (bearerRequest "POST".toList "tok-ann".toList (some sampleMove)) sampleUser).store
        (bearerRequest "POST".toList "tok-ann".toList (some sampleMove)) sampleUser).reply
      = some ⟨StatusPaymentRequired, .error "Insufficient credits".toList⟩ ∧
    (handleChessMove (CallLLM sampleWorld) noFaults
        (handleChessMove (CallLLM sampleWorld) noFaults sampleStore
          (bearerRequest "POST".toList "tok-ann".toList (some sampleMove)) sampleUser).store
        (bearerRequest "POST".toList "tok-ann".toList (some sampleMove)) sampleUser).llmCalls
      = [] ∧
    balanceOf (handleChessMove (CallLLM sampleWorld) noFaults sampleStore
        (bearerRequest "POST".toList "tok-ann".toList (some sampleMove)) sampleUser).store
      sampleUser.Email = some (1 - 1) :=
  have h0 := handleChessMove_charges_before_call (CallLLM sampleWorld) noFaults sampleStore
    (bearerRequest "POST".toList "tok-ann".toList (some sampleMove)) sampleUser sampleMove 1
    rfl rfl sampleStore_balance
  have h := h0.2.2 rfl rfl rfl
  have h2 := h.2.2.2 noFaults (bearerRequest "POST".toList "tok-ann".toList (some sampleMove))
    sampleMove rfl rfl
  have hcalls : (handleChessMove (CallLLM sampleWorld) noFaults sampleStore
      (bearerRequest "POST".toList "tok-ann".toList (some sampleMove)) sampleUser).llmCalls
      ≠ [] := by
    rw [h.1]
    exact List.cons_ne_nil _ _
  ⟨h.1, h.2.2.1 _ _ CallLLM_sampleWorld, h.2.1, h2.1, h2.2.2,
   (h0.1 hcalls).2.2.2 isFloat64_one (by norm_num)⟩

/-! ## Theorems on the sessions -/

theorem bearer_ne_nil (token : GoString) : "Bearer ".toList ++ token ≠ [] := by
  simp

theorem docOK_token {d : UserDoc} {t : GoString} (h : docOK d = true) (ht : d.token = some t) :
    ∃ c, d.tokenCreatedAt = some c ∧ isEpoch c := by
  unfold docOK at h
  rw [ht] at h
  cases hc : d.tokenCreatedAt with
  | none => rw [hc] at h; simp at h
  | some c =>
    rw [hc] at h
    simp only [Bool.and_eq_true, decide_eq_true_eq] at h
    exact ⟨c, rfl, h⟩

theorem expired_iff {now c : Int} (hnow : isEpoch now) (hc : isEpoch c) :
    expired now c = true ↔ now - c > 2592000 := by
  unfold expired
  rw [wrapInt64_sub hnow hc, tokenTTLSeconds_eq]
  simp

/-- What `bearerMiddleware` does with a non-empty bearer token when the query
is answered. -/
theorem bearerMiddleware_eval (f : Faults) (store : Store) (now : Int) (token : GoString)
    (r : Request) (hr : r.Authorization = "Bearer ".toList ++ token) (ht : token ≠ [])
    (hq : f.queryErr = false) :
    bearerMiddleware f store now r =
      match queryFirst (tokenIs token) store with
      | none => .denied StatusUnauthorized "Unauthorized".toList
      | some (_, d) =>
        match d.tokenCreatedAt with
        | none => .panic
        | some createdAt =>
          if expired now createdAt then .denied StatusUnauthorized "Expired".toList
          else .user { Email := d.email, Credits := d.credits, Token := token } := by
  unfold bearerMiddleware
  simp only [hr, bearer_ne_nil, TrimPrefix_bearer, ht, hq, if_false, Bool.false_eq_true]

theorem bearerMiddleware_no_user_of_queryErr (f : Faults) (store : Store) (now : Int)
    (r : Request) (hq : f.queryErr = true) : (bearerMiddleware f store now r).toUser = none := by
  unfold bearerMiddleware
  simp only [hq, if_true]
  split_ifs <;> rfl

/-- The verdict of `bearerMiddleware` on the document the token query returns. -/
theorem bearerMiddleware_first (f : Faults) (store : Store) (now : Int) (token : GoString)
    (r : Request) (hr : r.Authorization = "Bearer ".toList ++ token)
    (hnow : isEpoch now) (hok : SessionsOK store) (ht : token ≠ [])
    (i : Nat) (d : UserDoc) (hfirst : queryFirst (tokenIs token) store = some (i, d)) :
    ∃ c, d.tokenCreatedAt = some c ∧
      (now - c > 2592000 →
        (bearerMiddleware f store now r).toUser = none ∧
        (f.queryErr = false →
          bearerMiddleware f store now r = .denied StatusUnauthorized "Expired".toList)) ∧
      (now - c ≤ 2592000 → f.queryErr = false →
        bearerMiddleware f store now r =
          .user { Email := d.email, Credits := d.credits, Token := token }) := by
  obtain ⟨hget, hp⟩ := queryFirst_some hfirst
  have hmem : d ∈ store := List.getElem?_mem hget
  have htok : d.token = some token := by simpa [tokenIs] using hp
  obtain ⟨c, hc, hce⟩ := docOK_token (hok d hmem) htok
  refine ⟨c, hc, ?_, ?_⟩
  · intro hexp
    have he : expired now c = true := (expired_iff hnow hce).mpr hexp
    have hden : f.queryErr = false →
        bearerMiddleware f store now r = .denied StatusUnauthorized "Expired".toList := by
      intro hq
      rw [bearerMiddleware_eval f store now token r hr ht hq, hfirst]
      simp only [hc, he, if_true]
    refine ⟨?_, hden⟩
    cases hq : f.queryErr with
    | true => exact bearerMiddleware_no_user_of_queryErr f store now r hq
    | false => rw [hden hq]; rfl
  · intro hle hq
    have he : ¬ expired now c = true := by
      rw [expired_iff hnow hce]
      omega
    rw [bearerMiddleware_eval f store now token r hr ht hq, hfirst]
    simp only [hc, he, if_false, Bool.false_eq_true]

/-- C3: for every store of well-formed documents, every clock value and every
bearer token, `bearerMiddleware` returns no user when the header or the token
is empty, when no stored token equals the token, or when
`now - tokenCreatedAt > 2592000`; and it returns the user whose stored token
equals the token (the document the token query returns; the only such
document when tokens are unique) when `now - tokenCreatedAt ≤ 2592000`. The
TTL is 30 days, 2592000 seconds. -/
theorem bearerMiddleware_spec (f : Faults) (store : Store) (now : Int) (token : GoString)
    (r : Request) (hr : r.Authorization = "Bearer ".toList ++ token)
    (hnow : isEpoch now) (hok : SessionsOK store) :
    (∀ r0 : Request, r0.Authorization = [] →
      bearerMiddleware f store now r0 = .denied StatusUnauthorized "Unauthorized".toList) ∧
    (token = [] →
      bearerMiddleware f store now r = .denied StatusUnauthorized "Unauthorized".toList) ∧
    ((∀ d ∈ store, d.token ≠ some token) →
      (bearerMiddleware f store now r).toUser = none ∧
      (f.queryErr = false →
        bearerMiddleware f store now r = .denied StatusUnauthorized "Unauthorized".toList)) ∧
    (token ≠ [] → ∀ d ∈ store, d.token = some token →
      (∀ d1 ∈ store, d1.token = some token → d1 = d) →
      ∃ c, d.tokenCreatedAt = some c ∧
        (now - c > 2592000 →
          (bearerMiddleware f store now r).toUser = none ∧
          (f.queryErr = false →
            bearerMiddleware f store now r = .denied StatusUnauthorized "Expired".toList)) ∧
        (now - c ≤ 2592000 → f.queryErr = false →
          bearerMiddleware f store now r =
            .user { Email := d.email, Credits := d.credits, Token := token })) ∧
    (token ≠ [] → ∀ i d, queryFirst (tokenIs token) store = some (i, d) →
      ∃ c, d.tokenCreatedAt = some c ∧
        (now - c > 2592000 →
          (bearerMiddleware f store now r).toUser = none ∧
          (f.queryErr = false →
            bearerMiddleware f store now r = .denied StatusUnauthorized "Expired".toList)) ∧
        (now - c ≤ 2592000 → f.queryErr = false →
          bearerMiddleware f store now r =
            .user { Email := d.email, Credits := d.credits, Token := token })) ∧
    tokenTTLSeconds = 2592000 := by
  refine ⟨?_, ?_, ?_, ?_, ?_, tokenTTLSeconds_eq⟩
  · intro r0 h0
    unfold bearerMiddleware
    simp only [h0, if_true]
  · intro ht
    unfold bearerMiddleware
    simp only [hr, bearer_ne_nil, TrimPrefix_bearer, ht, if_true, if_false]
  · intro hnone
    by_cases ht : token = []
    · have : bearerMiddleware f store now r =
          .denied StatusUnauthorized "Unauthorized".toList := by
        unfold bearerMiddleware
        simp only [hr, bearer_ne_nil, TrimPrefix_bearer, ht, if_true, if_false]
      exact ⟨by rw [this]; rfl, fun _ => this⟩
    · have hq0 : queryFirst (tokenIs token) store = none := by
        rw [queryFirst_eq_none]
        intro d hd
        simpa [tokenIs] using hnone d hd
      have hden : f.queryErr = false →
          bearerMiddleware f store now r =
            .denied StatusUnauthorized "Unauthorized".toList := by
        intro hq
        rw [bearerMiddleware_eval f store now token r hr ht hq, hq0]
      refine ⟨?_, hden⟩
      cases hq : f.queryErr with
      | true => exact bearerMiddleware_no_user_of_queryErr f store now r hq
      | false => rw [hden hq]; rfl
  · intro ht d hd htok huniq
    obtain ⟨i, x, hfirst⟩ := queryFirst_of_mem (p := tokenIs token) hd (by simpa [tokenIs] using htok)
    obtain ⟨hget, hp⟩ := queryFirst_some hfirst
    have hx : x = d := huniq x (List.getElem?_mem hget) (by simpa [tokenIs] using hp)
    subst hx
    exact bearerMiddleware_first f store now token r hr hnow hok ht i x hfirst
  · intro ht i d hfirst
    exact bearerMiddleware_first f store now token r hr hnow hok ht i d hfirst

/-- A user returned by `bearerMiddleware` has a stored balance. -/
theorem bearerMiddleware_user_has_balance (f : Faults) (store : Store) (now : Int)
    (r : Request) (u : UserResponse) (h : bearerMiddleware f store now r = .user u) :
    ∃ b, balanceOf store u.Email = some b := by
  unfold bearerMiddleware at h
  simp only at h
  generalize strings.TrimPrefix r.Authorization "Bearer ".toList = T at h
  split_ifs at h
  cases hfirst : queryFirst (tokenIs T) store with
  | none => rw [hfirst] at h; simp at h
  | some x =>
    obtain ⟨i, d⟩ := x
    rw [hfirst] at h
    simp only at h
    cases hc : d.tokenCreatedAt with
    | none => rw [hc] at h; simp at h
    | some c =>
      rw [hc] at h
      simp only at h
      split_ifs at h
      simp only [Auth.user.injEq] at h
      have hmem : d ∈ store := List.getElem?_mem (queryFirst_some hfirst).1
      obtain ⟨j, y, hy⟩ := queryFirst_of_mem (p := emailIs u.Email) hmem
        (by simp [emailIs, ← h])
      exact ⟨y.credits, by simp [balanceOf, hy]⟩

theorem sampleStore_ok : SessionsOK sampleStore := by
  decide

/-- C3 at the sample store: the stored token is accepted up to 30 days after
its creation, and refused one second later. -/
theorem bearerMiddleware_spec_witness :
    bearerMiddleware noFaults sampleStore (1700000000 + 2592000)
        (bearerRequest "POST".toList "tok-ann".toList none) =
      .user { Email := "ann@example.org".toList, Credits := 1, Token := "tok-ann".toList } ∧
    bearerMiddleware noFaults sampleStore (1700000000 + 2592001)
        (bearerRequest "POST".toList "tok-ann".toList none) =
      .denied StatusUnauthorized "Expired".toList ∧
    bearerMiddleware noFaults sampleStore 1700000000
        (bearerRequest "POST".toList "tok-bob".toList none) =
      .denied StatusUnauthorized "Unauthorized".toList := by
  have h1 := (bearerMiddleware_spec noFaults sampleStore (1700000000 + 2592000) "tok-ann".toList
    (bearerRequest "POST".toList "tok-ann".toList none) rfl (by decide)
    sampleStore_ok).2.2.2.2.1 (by decide) 0 _ rfl
  have h2 := (bearerMiddleware_spec noFaults sampleStore (1700000000 + 2592001) "tok-ann".toList
    (bearerRequest "POST".toList "tok-ann".toList none) rfl (by decide)
    sampleStore_ok).2.2.2.2.1 (by decide) 0 _ rfl
  have h3 := (bearerMiddleware_spec noFaults sampleStore 1700000000 "tok-bob".toList
    (bearerRequest "POST".toList "tok-bob".toList none) rfl (by decide)
    sampleStore_ok).2.2.1 (by decide)
  obtain ⟨c1, hc1, -, ha⟩ := h1
  obtain ⟨c2, hc2, hb, -⟩ := h2
  have e1 : c1 = 1700000000 := by
    have : (some (1700000000 : Int)) = some c1 := hc1
    exact (Option.some.inj this).symm
  have e2 : c2 = 1700000000 := by
    have : (some (1700000000 : Int)) = some c2 := hc2
    exact (Option.some.inj this).symm
  subst e1 e2
  exact ⟨ha (by norm_num) rfl, (hb (by norm_num)).2 rfl, h3.2 rfl⟩

/-- What `handleRefreshAuth` does with a POST carrying a non-empty bearer
token when the query is answered. -/
theorem handleRefreshAuth_eval (f : Faults) (store : Store) (now now2 : Int)
    (uuid token : GoString) (r : Request) (hm : r.Method = "POST".toList)
    (hr : r.Authorization = "Bearer ".toList ++ token) (ht : token ≠ [])
    (hq : f.queryErr = false) :
    handleRefreshAuth f store now now2 uuid r =
      match queryFirst (tokenIs token) store with
      | none => some (store, ⟨StatusUnauthorized, .error "Unauthorized".toList⟩)
      | some (ref, d) =>
        match d.tokenCreatedAt with
        | none => none
        | some createdAt =>
          if expired now createdAt then
            some (store, ⟨StatusUnauthorized, .error "Expired".toList⟩)
          else if f.setErr then
            some (store, ⟨StatusInternalServerError, .error "Server error".toList⟩)
          else
            some (store.set ref { d with token := some uuid, tokenCreatedAt := some now2 },
              ⟨StatusOK, .user { Email := d.email, Credits := d.credits, Token := uuid }⟩) := by
  unfold handleRefreshAuth
  simp only [hm, hr, bearer_ne_nil, TrimPrefix_bearer, ht, hq, if_false, Bool.false_eq_true,
    ne_eq, not_true_eq_false]

/-- The token checks of `handleRefreshAuth` are those of `bearerMiddleware`. -/
theorem handleRefreshAuth_same_checks (f : Faults) (store : Store) (now now2 : Int)
    (uuid : GoString) (r : Request) (hm : r.Method = "POST".toList)
    (hs : f.setErr = false) :
    ((∃ u, bearerMiddleware f store now r = .user u) ↔
      (∃ store1 u, handleRefreshAuth f store now now2 uuid r =
        some (store1, ⟨StatusOK, .user u⟩))) ∧
    (∀ st msg, bearerMiddleware f store now r = .denied st msg →
      handleRefreshAuth f store now now2 uuid r = some (store, ⟨st, .error msg⟩)) ∧
    (bearerMiddleware f store now r = .panic ↔
      handleRefreshAuth f store now now2 uuid r = none) := by
  unfold bearerMiddleware handleRefreshAuth
  simp only [hm, hs, ne_eq, not_true_eq_false, if_false, Bool.false_eq_true]
  generalize strings.TrimPrefix r.Authorization "Bearer ".toList = T
  generalize r.Authorization = A
  by_cases h1 : A = []
  · simp [h1, StatusUnauthorized, StatusOK]
  · simp only [h1, if_false]
    by_cases h2 : T = []
    · simp [h2, StatusUnauthorized, StatusOK]
    · simp only [h2, if_false]
      cases hq : f.queryErr with
      | true => simp [StatusInternalServerError, StatusOK]
      | false =>
        simp only [Bool.false_eq_true, if_false]
        cases hfirst : queryFirst (tokenIs T) store with
        | none => simp [StatusUnauthorized, StatusOK]
        | some x =>
          obtain ⟨ref, d⟩ := x
          simp only
          cases hc : d.tokenCreatedAt with
          | none => simp
          | some c =>
            simp only
            by_cases he : expired now c = true
            · simp [he, StatusUnauthorized, StatusOK]
            · simp [he]

/-- What a successful run of `handleRefreshAuth` has done. -/
theorem handleRefreshAuth_success {f : Faults} {store : Store} {now now2 : Int}
    {old new : GoString} {r : Request} {store1 : Store} {body : ReplyBody}
    (hr : r.Authorization = "Bearer ".toList ++ old)
    (hsucc : handleRefreshAuth f store now now2 new r = some (store1, ⟨StatusOK, body⟩)) :
    ∃ ref d c, old ≠ [] ∧ queryFirst (tokenIs old) store = some (ref, d) ∧
      d.tokenCreatedAt = some c ∧ expired now c = false ∧
      store1 = store.set ref { d with token := some new, tokenCreatedAt := some now2 } ∧
      body = .user { Email := d.email, Credits := d.credits, Token := new } := by
  have hm : r.Method = "POST".toList := by
    by_contra hm
    unfold handleRefreshAuth at hsucc
    simp only [ne_eq, hm, not_false_eq_true, if_true, Option.some.injEq, Prod.mk.injEq,
      Reply.mk.injEq] at hsucc
    exact absurd hsucc.2.1 (by decide)
  have ht : old ≠ [] := by
    intro ht
    unfold handleRefreshAuth at hsucc
    simp only [hm, hr, bearer_ne_nil, TrimPrefix_bearer, ht, ne_eq, not_true_eq_false, if_false,
      if_true, Option.some.injEq, Prod.mk.injEq, Reply.mk.injEq] at hsucc
    exact absurd hsucc.2.1 (by decide)
  have hq : f.queryErr = false := by
    cases hq : f.queryErr with
    | false => rfl
    | true =>
      unfold handleRefreshAuth at hsucc
      simp only [hm, hr, bearer_ne_nil, TrimPrefix_bearer, ht, hq, ne_eq, not_true_eq_false,
        if_false, if_true, Option.some.injEq, Prod.mk.injEq, Reply.mk.injEq] at hsucc
      exact absurd hsucc.2.1 (by decide)
  rw [handleRefreshAuth_eval f store now now2 new old r hm hr ht hq] at hsucc
  cases hfirst : queryFirst (tokenIs old) store with
  | none =>
    rw [hfirst] at hsucc
    simp only [Option.some.injEq, Prod.mk.injEq, Reply.mk.injEq] at hsucc
    exact absurd hsucc.2.1 (by decide)
  | some x =>
    obtain ⟨ref, d⟩ := x
    rw [hfirst] at hsucc
    simp only at hsucc
    cases hc : d.tokenCreatedAt with
    | none => rw [hc] at hsucc; simp at hsucc
    | some c =>
      rw [hc] at hsucc
      simp only at hsucc
      cases he : expired now c with
      | true =>
        simp only [he, if_true, Option.some.injEq, Prod.mk.injEq, Reply.mk.injEq] at hsucc
        exact absurd hsucc.2.1 (by decide)
      | false =>
        simp only [he, Bool.false_eq_true, if_false] at hsucc
        cases hs : f.setErr with
        | true =>
          simp only [hs, if_true, Option.some.injEq, Prod.mk.injEq, Reply.mk.injEq] at hsucc
          exact absurd hsucc.2.1 (by decide)
        | false =>
          simp only [hs, Bool.false_eq_true, if_false, Option.some.injEq, Prod.mk.injEq,
            Reply.mk.injEq, true_and] at hsucc
          exact ⟨ref, d, c, ht, rfl, hc, he, hsucc.1.symm, hsucc.2.symm⟩

/-- C4: in a store with unique tokens, after `handleRefreshAuth` has succeeded
on the token `old` and stored a fresh non-empty token `new`, `bearerMiddleware`
refuses `old` and accepts `new` (within the TTL of the new token), returning
the user that owned `old`; and on a POST `handleRefreshAuth` accepts a token
exactly when `bearerMiddleware` accepts it at the same instant, refusing with
the same status and message otherwise. -/
theorem handleRefreshAuth_rotates_token :
    (∀ (f : Faults) (store : Store) (now now2 now3 : Int) (old new : GoString) (r : Request)
      (store1 : Store) (body : ReplyBody),
      UniqueTokens store → isEpoch now2 → isEpoch now3 →
      r.Authorization = "Bearer ".toList ++ old →
      (∀ d ∈ store, d.token ≠ some new) → new ≠ [] → new ≠ old →
      handleRefreshAuth f store now now2 new r = some (store1, ⟨StatusOK, body⟩) →
      ∃ d ∈ store, d.token = some old ∧
        body = .user { Email := d.email, Credits := d.credits, Token := new } ∧
        (∀ (g : Faults) (r1 : Request), r1.Authorization = "Bearer ".toList ++ old →
          g.queryErr = false →
          bearerMiddleware g store now r1 =
            .user { Email := d.email, Credits := d.credits, Token := old }) ∧
        (∀ (g : Faults) (r1 : Request), r1.Authorization = "Bearer ".toList ++ old →
          (bearerMiddleware g store1 now3 r1).toUser = none ∧
          (g.queryErr = false →
            bearerMiddleware g store1 now3 r1 =
              .denied StatusUnauthorized "Unauthorized".toList)) ∧
        (∀ (g : Faults) (r2 : Request), r2.Authorization = "Bearer ".toList ++ new →
          g.queryErr = false → now3 - now2 ≤ 2592000 →
          bearerMiddleware g store1 now3 r2 =
            .user { Email := d.email, Credits := d.credits, Token := new })) ∧
    (∀ (f : Faults) (store : Store) (now now2 : Int) (uuid : GoString) (r : Request),
      r.Method = "POST".toList → f.setErr = false →
      ((∃ u, bearerMiddleware f store now r = .user u) ↔
        (∃ store1 u, handleRefreshAuth f store now now2 uuid r =
          some (store1, ⟨StatusOK, .user u⟩))) ∧
      (∀ st msg, bearerMiddleware f store now r = .denied st msg →
        handleRefreshAuth f store now now2 uuid r = some (store, ⟨st, .error msg⟩))) := by
  constructor
  · intro f store now now2 now3 old new r store1 body hu hnow2 hnow3 hr hfresh hne hno hsucc
    obtain ⟨ref, d, c, ht, hfirst, hc, he, hs1, hbody⟩ := handleRefreshAuth_success hr hsucc
    obtain ⟨hget, hp⟩ := queryFirst_some hfirst
    have hmem : d ∈ store := List.getElem?_mem hget
    have htok : d.token = some old := by simpa [tokenIs] using hp
    have hlt : ref < store.length := by
      by_contra hge
      rw [List.getElem?_eq_none (by omega)] at hget
      exact absurd hget (by simp)
    have hold : queryFirst (tokenIs old) store1 = none := by
      rw [hs1, queryFirst_set_of_others (tokenIs old) store ref _ hlt]
      · have : ¬ (some new = some old) := fun h => hno (Option.some.inj h)
        simp [tokenIs, this]
      · intro j x hj hne1
        cases hx : tokenIs old x with
        | false => rfl
        | true =>
          have hxt : x.token = some old := by simpa [tokenIs] using hx
          exact absurd (uniqueTokens_index hu hj hget hxt htok) hne1
    have hnew : queryFirst (tokenIs new) store1 =
        some (ref, { d with token := some new, tokenCreatedAt := some now2 }) := by
      rw [hs1, queryFirst_set_of_others (tokenIs new) store ref _ hlt]
      · simp [tokenIs]
      · intro j x hj _
        have := hfresh x (List.getElem?_mem hj)
        simpa [tokenIs] using this
    refine ⟨d, hmem, htok, hbody, ?_, ?_, ?_⟩
    · intro g r1 hr1 hg
      rw [bearerMiddleware_eval g store now old r1 hr1 ht hg, hfirst]
      simp only [hc, he, Bool.false_eq_true, if_false]
    · intro g r1 hr1
      have hden : g.queryErr = false →
          bearerMiddleware g store1 now3 r1 =
            .denied StatusUnauthorized "Unauthorized".toList := by
        intro hg
        rw [bearerMiddleware_eval g store1 now3 old r1 hr1 ht hg, hold]
      refine ⟨?_, hden⟩
      cases hg : g.queryErr with
      | true => exact bearerMiddleware_no_user_of_queryErr g store1 now3 r1 hg
      | false => rw [hden hg]; rfl
    · intro g r2 hr2 hg hle
      have he2 : ¬ expired now3 now2 = true := by
        rw [expired_iff hnow3 hnow2]
        omega
      rw [bearerMiddleware_eval g store1 now3 new r2 hr2 hne hg, hnew]
      simp only [he2, if_false, Bool.false_eq_true]
  · intro f store now now2 uuid r hm hs
    have h := handleRefreshAuth_same_checks f store now now2 uuid r hm hs
    exact ⟨h.1, h.2.1⟩

/-! ## Theorems on the provider catalogue and the outbound request -/

set_option maxRecDepth 1000000 in
/-- C7: the request bodies are built by plain concatenation. For the prompt
made of one double quote, neither the Gemini nor the OpenAI body is a JSON
document; for a prompt that closes the string and opens another member, the
Gemini body decodes, but its field `contents[0].parts[0].text` is not the
prompt; the body built for the prompt of `callLLM` itself, which holds raw
newlines and tabs, is not a JSON document either. A prompt without special
bytes is read back unchanged. -/
theorem BodyFn_does_not_escape :
    (json.Unmarshal ((Gemini "k".toList).BodyFn "k".toList "gemini-2.0-flash".toList
      "\"".toList)).isSome = false ∧
    (json.Unmarshal ((OpenAI "k".toList).BodyFn "k".toList "gpt-4o".toList
      "\"".toList)).isSome = false ∧
    (json.Unmarshal ((Gemini "k".toList).BodyFn "k".toList "gemini-2.0-flash".toList
      "a\", \"b\": \"c".toList)).bind geminiPromptField = some "a".toList ∧
    (json.Unmarshal ((Gemini "k".toList).BodyFn "k".toList "gemini-2.0-flash".toList
      (callLLM_prompt sampleMove.Board sampleMove.AvailableMoves sampleMove.InvalidMoves))).isSome
      = false ∧
    (json.Unmarshal ((Gemini "k".toList).BodyFn "k".toList "gemini-2.0-flash".toList
      "e4 or d4?".toList)).bind geminiPromptField = some "e4 or d4?".toList ∧
    (json.Unmarshal ((OpenAI "k".toList).BodyFn "k".toList "gpt-4o".toList
      "e4 or d4?".toList)).bind openAIPromptField = some "e4 or d4?".toList := by
  refine ⟨?_, ?_, ?_, ?_, ?_, ?_⟩ <;> decide

/-- C9: on the documented response of `/v1/chat/completions`, the endpoint
the OpenAI `UrlFn` and `BodyFn` target, the OpenAI `GetOutputFn` panics for
every answer `t`: it reads `choices[0].text`, the field of the legacy
completions response. The Gemini `GetOutputFn` returns `t` on the documented
`generateContent` response. -/
theorem OpenAI_GetOutputFn_reads_legacy_field (apiKey model t : GoString) :
    (OpenAI apiKey).GetOutputFn (chatCompletionPayload t) = none ∧
    (OpenAI apiKey).UrlFn apiKey model = "https://api.openai.com/v1/chat/completions".toList ∧
    (OpenAI apiKey).GetOutputFn (legacyCompletionPayload t) = some t ∧
    (Gemini apiKey).GetOutputFn (geminiPayload t) = some t :=
  ⟨rfl, rfl, rfl, rfl⟩

theorem callLLM_request_ok {w : World} {board provider model : GoString}
    {availableMoves invalidMoves : List GoString} {p : Provider} {req : HttpRequest}
    (h : callLLM_request w board provider model availableMoves invalidMoves = .ok (p, req)) :
    Models w.getenv provider = some p ∧
    ∃ url, w.urlParse (p.UrlFn p.ApiKey model) = some url ∧
      req = ⟨"POST".toList, url,
        [("Content-Type".toList, ["application/json".toList]),
         ("Authorization".toList, [p.AuthFn p.ApiKey model])],
        p.BodyFn p.ApiKey model (callLLM_prompt board availableMoves invalidMoves)⟩ := by
  unfold callLLM_request at h
  cases hp : Models w.getenv provider with
  | none => rw [hp] at h; simp at h
  | some p0 =>
    rw [hp] at h
    simp only at h
    cases hu : w.urlParse (p0.UrlFn p0.ApiKey model) with
    | none => rw [hu] at h; simp at h
    | some url =>
      rw [hu] at h
      simp only [Except.ok.injEq, Prod.mk.injEq] at h
      obtain ⟨h1, h2⟩ := h
      subst h1
      refine ⟨rfl, url, hu, ?_⟩
      rw [← h2]
      simp [Header.Set]

/-- C8, as stated, fails: for Gemini, whose `AuthFn` returns the empty
string, the request handed to the HTTP client carries an Authorization
header (with the empty value). -/
theorem callLLM_gemini_request_has_authorization :
    ∃ p req, callLLM_request sampleWorld sampleMove.Board "Gemini".toList sampleMove.Model
        sampleMove.AvailableMoves sampleMove.InvalidMoves = .ok (p, req) ∧
      p.AuthFn p.ApiKey sampleMove.Model = [] ∧
      req.Header.Has "Authorization".toList = true ∧
      req.Header.Values "Authorization".toList = [[]] :=
  ⟨_, _, rfl, rfl, by decide, by decide⟩

/-- C8, amended: whenever `callLLM` builds a request for a registered
provider, the request is a POST that carries an Authorization header whose
single value is the string returned by the `AuthFn` of the provider, empty or
not: the empty string for Gemini, `Bearer ` followed by the API key for
OpenAI. -/
theorem callLLM_request_always_sets_authorization (w : World) (board provider model : GoString)
    (availableMoves invalidMoves : List GoString) (p : Provider) (req : HttpRequest)
    (h : callLLM_request w board provider model availableMoves invalidMoves = .ok (p, req)) :
    Models w.getenv provider = some p ∧
    req.Method = "POST".toList ∧
    req.Header.Has "Authorization".toList = true ∧
    req.Header.Values "Authorization".toList = [p.AuthFn p.ApiKey model] ∧
    (provider = "Gemini".toList → req.Header.Values "Authorization".toList = [[]]) ∧
    (provider = "OpenAI".toList →
      req.Header.Values "Authorization".toList =
        ["Bearer ".toList ++ w.getenv "OPENAI_API_KEY".toList]) := by
  obtain ⟨hp, url, -, hreq⟩ := callLLM_request_ok h
  have hv : req.Header.Values "Authorization".toList = [p.AuthFn p.ApiKey model] := by
    rw [hreq]
    simp [Header.Values, List.find?]
  refine ⟨hp, by rw [hreq], ?_, hv, ?_, ?_⟩
  · rw [hreq]
    simp [Header.Has]
  · intro hg
    rw [hv]
    subst hg
    have : p = Gemini (w.getenv "GEMINI_API_KEY".toList) := by
      have h2 : Models w.getenv "Gemini".toList =
          some (Gemini (w.getenv "GEMINI_API_KEY".toList)) := by
        unfold Models
        rw [if_pos rfl]
      rw [h2] at hp
      exact (Option.some.inj hp).symm
    rw [this]
    rfl
  · intro ho
    rw [hv]
    subst ho
    have : p = OpenAI (w.getenv "OPENAI_API_KEY".toList) := by
      have h2 : Models w.getenv "OpenAI".toList =
          some (OpenAI (w.getenv "OPENAI_API_KEY".toList)) := by
        unfold Models
        rw [if_neg (by decide), if_pos rfl]
      rw [h2] at hp
      exact (Option.some.inj hp).symm
    rw [this]
    rfl

/-- The amended C8 for an OpenAI call in the sample environment. -/
theorem callLLM_request_always_sets_authorization_witness :
    ∃ p req, callLLM_request sampleWorld sampleMove.Board "OpenAI".toList "gpt-4o".toList
        sampleMove.AvailableMoves sampleMove.InvalidMoves = .ok (p, req) ∧
      req.Header.Values "Authorization".toList = ["Bearer key-OPENAI_API_KEY".toList] :=
  ⟨_, _, rfl,
   (callLLM_request_always_sets_authorization sampleWorld sampleMove.Board "OpenAI".toList
     "gpt-4o".toList sampleMove.AvailableMoves sampleMove.InvalidMoves _ _ rfl).2.2.2.2.2 rfl⟩

theorem sampleStore_unique : UniqueTokens sampleStore := by
  decide

theorem sampleStore_refresh :
    handleRefreshAuth noFaults sampleStore 1700000050 1700000100 "tok-new".toList
        (bearerRequest "POST".toList "tok-ann".toList none) =
      some (refreshedStore, ⟨StatusOK,
        .user { Email := "ann@example.org".toList, Credits := 1, Token := "tok-new".toList }⟩) := by
  decide

/-- C4 at the sample store: after the refresh of `tok-ann` into `tok-new`,
the old token is refused and the new one gives the same user. -/
theorem handleRefreshAuth_rotates_token_witness :
    bearerMiddleware noFaults refreshedStore 1700000200
        (bearerRequest "POST".toList "tok-ann".toList none) =
      .denied StatusUnauthorized "Unauthorized".toList ∧
    bearerMiddleware noFaults refreshedStore 1700000200
        (bearerRequest "POST".toList "tok-new".toList none) =
      .user { Email := "ann@example.org".toList, Credits := 1, Token := "tok-new".toList } := by
  obtain ⟨d, -, -, hbody, -, hold, hnew⟩ :=
    handleRefreshAuth_rotates_token.1 noFaults sampleStore 1700000050 1700000100 1700000200
      "tok-ann".toList "tok-new".toList (bearerRequest "POST".toList "tok-ann".toList none)
      refreshedStore _ sampleStore_unique (by decide)
      (by decide) rfl (by decide) (by decide) (by decide) sampleStore_refresh
  have h1 := hold noFaults (bearerRequest "POST".toList "tok-ann".toList none) rfl
  have h2 := hnew noFaults (bearerRequest "POST".toList "tok-new".toList none) rfl rfl
    (by norm_num)
  simp only [ReplyBody.user.injEq, UserResponse.mk.injEq, and_true] at hbody
  rw [← hbody.1, ← hbody.2] at h2
  exact ⟨h1.2 rfl, h2⟩

end Boten
